import Mathlib

/-!
Verification development for the virtual-currency ledger backend
(Express + Mongoose controllers).

The numeric model: the source stores amounts and balances as
`mongoose.Types.Decimal128`, but every arithmetic operation converts the
values to JavaScript numbers first (`Number(value.toString())`), computes
with binary float64 arithmetic, and converts the result back with
`Decimal128.fromString(String(result))`.  Since `String(d)` produces the
shortest decimal string that round-trips to the same double, every later
read (`Number(x.toString())`) recovers exactly the same double.  We
therefore model every stored amount and balance by the exact rational
value of the double it denotes.  Every JavaScript double (ignoring the
overflow/subnormal range, which is unreachable at the ledger's magnitudes)
is a dyadic rational m * 2^e, which we represent by the pair `Dy`.
Float64 addition and subtraction are the exact dyadic operation followed
by rounding to 53 significant bits, round-to-nearest, ties-to-even.
-/

/-- Floor of log2 with explicit fuel (so the kernel can evaluate it). -/
def lg2 (fuel n : Nat) : Nat :=
  match fuel with
  | 0 => 0
  | f + 1 => if n < 2 then 0 else lg2 f (n / 2) + 1

/-- Floor of log2 of a positive natural. -/
def natLg (n : Nat) : Nat := lg2 n n

/-- 2^k as an integer. -/
def twoPow (k : Nat) : Int := ((2 ^ k : Nat) : Int)

/-- A dyadic rational m * 2^e: the exact value of a JavaScript double. -/
structure Dy where
  m : Int
  e : Int
  deriving DecidableEq, Repr

/-- The exact rational value of a dyadic number. -/
def toRat (d : Dy) : ℚ := (d.m : ℚ) * (2 : ℚ) ^ d.e

/-- Round p / 2^t to the nearest integer, ties to even. -/
def rndShift (p : Nat) (t : Nat) : Nat :=
  let q := p / 2 ^ t
  let r := p % 2 ^ t
  let h := 2 ^ (t - 1)
  if t = 0 then p
  else if r < h then q
  else if h < r then q + 1
  else if q % 2 = 0 then q else q + 1

/-- Round a dyadic value to 53 significant bits, round-to-nearest,
ties-to-even: the value a JavaScript float64 arithmetic operation
produces from the exact result (exponent range ignored, faithful to
binary64 away from overflow/subnormals). -/
def fl (d : Dy) : Dy :=
  let a := d.m.natAbs
  if a ≤ 2 ^ 53 then d
  else
    let t := natLg a - 52
    let n := rndShift a t
    ⟨(if d.m < 0 then -(n : Int) else (n : Int)), d.e + t⟩

/-- Exact sum of two dyadic values. -/
def dadd (x y : Dy) : Dy :=
  if x.e ≤ y.e then ⟨x.m + y.m * twoPow (y.e - x.e).toNat, x.e⟩
  else ⟨x.m * twoPow (x.e - y.e).toNat + y.m, y.e⟩

/-- Exact negation of a dyadic value. -/
def dneg (x : Dy) : Dy := ⟨-x.m, x.e⟩

/-- Exact difference of two dyadic values. -/
def dsub (x y : Dy) : Dy := dadd x (dneg y)

/-- JavaScript float64 addition: exact sum, rounded. -/
def jsAdd (x y : Dy) : Dy := fl (dadd x y)

/-- JavaScript float64 subtraction: exact difference, rounded.
This embeds the source's
`compareDecimal = (a, b) => Number(a.toString()) - Number(b.toString())`
(transferController.js, recoveryController.js): reading the Decimal128
back as a Number recovers the stored double, and `-` is float64
subtraction. -/
def jsSub (x y : Dy) : Dy := fl (dadd x (dneg y))

/-- The source's `compareDecimal(a, b)`: the float64 signed difference;
callers only test its sign. -/
def compareDecimal (a b : Dy) : Dy := jsSub a b

/-- Floor of log2 of a/b for naturals a, b >= 1. -/
def qlg (a b : Nat) : Int :=
  if b ≤ a then (natLg (a / b) : Int)
  else
    let k := natLg (b / a)
    if a * 2 ^ k = b then -(k : Int) else -(k : Int) - 1

/-- Round p / q to the nearest integer, ties to even. -/
def rndDiv (p q : Nat) : Nat :=
  let d := p / q
  let r := p % q
  if 2 * r < q then d
  else if q < 2 * r then d + 1
  else if d % 2 = 0 then d else d + 1

/-- The float64 double nearest to the nonnegative rational a/b (round to
nearest, ties to even): what JavaScript number parsing, e.g.
`express.json` or `Number("0.1")`, produces from a decimal literal. -/
def flQ (a b : Nat) : Dy :=
  if a = 0 then ⟨0, 0⟩
  else
    let e := qlg a b
    let s := 52 - e
    let n := if 0 ≤ s then rndDiv (a * 2 ^ s.toNat) b else rndDiv a (b * 2 ^ (-s).toNat)
    ⟨(n : Int), e - 52⟩

/-- Value-level less-or-equal test on dyadic numbers (via the sign of the
exact difference); JavaScript comparison of two doubles compares their
exact values, which this decides. -/
def dleB (x y : Dy) : Bool := decide ((dsub x y).m ≤ 0)

/-! ## Ledger data model (models/User.js, models/Transaction.js) -/

/-- Account role (User schema: enum ["Admin", "Player"]). -/
inductive Role where
  | admin
  | player
  deriving DecidableEq, Repr

/-- Transaction kind (Transaction schema:
enum ["manual", "daily-mint", "request", "reversal", "chip-recovery"]). -/
inductive TxKind where
  | manual
  | dailyMint
  | request
  | reversal
  | chipRecovery
  deriving DecidableEq, Repr

/-- Transaction status (Transaction schema:
enum ["pending", "approved", "reversed", "failed"]). -/
inductive TxStatus where
  | pending
  | approved
  | reversed
  | failed
  deriving DecidableEq, Repr

/-- An account document (User schema fields the ledger engine reads). -/
structure Account where
  email : String
  role : Role
  balance : Dy
  isBanned : Bool
  isVerified : Bool
  deriving DecidableEq, Repr

/-- A ledger entry (Transaction schema fields the ledger engine writes). -/
structure Tx where
  id : Nat
  fromUserId : Option Nat
  toUserId : Option Nat
  amount : Dy
  kind : TxKind
  status : TxStatus
  idempotencyKey : Option String
  isReversal : Bool
  reversedTransactionId : Option Nat
  reason : Option String
  adminId : Option Nat
  batchId : Option String
  recoveryFromUserId : Option Nat
  recoveryReason : Option String
  deriving DecidableEq, Repr

/-- The durable store: the users collection (id-keyed association list),
the transactions collection in insertion order, and the id generator for
new transaction documents. -/
structure St where
  accounts : List (Nat × Account)
  txs : List Tx
  nextId : Nat
  deriving DecidableEq, Repr

/-- The authenticated principal attached to the request by the auth
middleware (req.user). -/
structure Principal where
  id : Nat
  role : Role
  deriving DecidableEq, Repr

/-- Structured errors: each constructor corresponds to one abort-and-respond
site in the controllers. -/
inductive Err where
  | playersOnlyRequests
  | adminManualOnly
  | receiverNotFound
  | senderNotFound
  | selfTransfer
  | invalidAmount
  | insufficientBalance
  | invalidTransferType
  | txNotFound
  | notRequestKind
  | notPending
  | invalidRequestTx
  | userNotFound
  | alreadyReversed
  | cannotReverseReversal
  | onlyApprovedReversible
  | missingParties
  | insufficientForReversal
  | invalidMintAmount
  | noUsersFound
  | sameAccount
  | notBanned
  | notVerified
  | noChipsToRecover
  | amountOutOfRange
  | duplicateIdempotencyKey
  | immutable
  deriving DecidableEq, Repr

/-- User.findById. -/
def getAcct : List (Nat × Account) → Nat → Option Account
  | [], _ => none
  | (k, a) :: rest, i => if k = i then some a else getAcct rest i

/-- user.save(): write the in-memory document back to its row (first
matching id; ids are unique in the store). -/
def setAcct : List (Nat × Account) → Nat → Account → List (Nat × Account)
  | [], _, _ => []
  | (k, a) :: rest, i, v => if k = i then (k, v) :: rest else (k, a) :: setAcct rest i v

/-- Transaction.findById. -/
def getTx : List Tx → Nat → Option Tx
  | [], _ => none
  | t :: rest, i => if t.id = i then some t else getTx rest i

/-- transactionDoc.save(): write the modified transaction document back.
The schema's immutability pre-hooks cover only the query update/delete
entry points, not document save, so this path succeeds (it is the path
approveRequest / rejectRequest / reverseTransaction use to change
status and admin fields). -/
def setTx (txs : List Tx) (i : Nat) (f : Tx → Tx) : List Tx :=
  match txs with
  | [] => []
  | t :: rest => if t.id = i then f t :: rest else t :: setTx rest i f

/-- The Transaction schema's amount validator:
`numValue > 0 && numValue <= 20000000000000` on the number read back from
the Decimal128 (a sign test plus an exact value comparison). -/
def txAmountValid (d : Dy) : Bool := decide (0 < d.m) && dleB d ⟨20000000000000, 0⟩

/-- The unique sparse index on idempotencyKey: appending an entry whose
non-null key already occurs in the collection fails. -/
def keyFresh (txs : List Tx) (k : Option String) : Bool :=
  match k with
  | none => true
  | some s => txs.all fun t => decide (t.idempotencyKey ≠ some s)

/-- Transaction.create inside the session: validate the amount, enforce
the unique idempotency-key index, then append.  Any failure aborts the
surrounding session (the caller returns the error and no state change
is committed). -/
def createTx (s : St) (mk : Nat → Tx) : Except Err St :=
  let t := mk s.nextId
  if ¬ txAmountValid t.amount then .error .amountOutOfRange
  else if ¬ keyFresh s.txs t.idempotencyKey then .error .duplicateIdempotencyKey
  else .ok { s with txs := s.txs ++ [t], nextId := s.nextId + 1 }

/-- Fields of req.body for POST /transfer. -/
structure TransferBody where
  toUserId : Nat
  fromUserId : Option Nat
  amount : Dy
  reason : Option String
  deriving DecidableEq, Repr

/-- The transfer `type` field ("manual", "request", or anything else). -/
inductive TransferType where
  | manual
  | request
  | invalid
  deriving DecidableEq, Repr

/-- transferController.transfer.  `key` is req.idempotencyKey (set by the
idempotency middleware when the request proceeded).  The body amount is
the JavaScript number carried by the parsed request; `toDecimal` applies
`Number(value)` (here `fl`) and rejects non-positive values.  Aborted
sessions leave the store untouched, which `Except.error` models. -/
def transfer (s : St) (user : Principal) (tType : TransferType)
    (body : TransferBody) (key : Option String) : Except Err St :=
  if user.role = .player ∧ tType ≠ .request then .error .playersOnlyRequests
  else if user.role = .admin ∧ tType ≠ .manual then .error .adminManualOnly
  else if tType = .request ∧ user.role = .player then
    match getAcct s.accounts body.toUserId with
    | none => .error .receiverNotFound
    | some _ =>
      if user.id = body.toUserId then .error .selfTransfer
      else
        let amt := fl body.amount
        if amt.m ≤ 0 then .error .invalidAmount
        else
          createTx s fun i =>
            { id := i, fromUserId := some user.id, toUserId := some body.toUserId
              amount := amt, kind := .request, status := .pending
              idempotencyKey := key, isReversal := false
              reversedTransactionId := none, reason := body.reason
              adminId := none, batchId := none
              recoveryFromUserId := none, recoveryReason := none }
  else if tType = .manual ∧ user.role = .admin then
    match getAcct s.accounts body.toUserId with
    | none => .error .receiverNotFound
    | some receiver =>
      match body.fromUserId with
      | some senderId =>
        match getAcct s.accounts senderId with
        | none => .error .senderNotFound
        | some sender =>
          if senderId = body.toUserId then .error .selfTransfer
          else
            let amt := fl body.amount
            if amt.m ≤ 0 then .error .invalidAmount
            else if (compareDecimal sender.balance amt).m < 0 then .error .insufficientBalance
            else
              let acc1 := setAcct s.accounts senderId
                { sender with balance := jsSub sender.balance amt }
              let acc2 := setAcct acc1 body.toUserId
                { receiver with balance := jsAdd receiver.balance amt }
              createTx { s with accounts := acc2 } fun i =>
                { id := i, fromUserId := some senderId, toUserId := some body.toUserId
                  amount := amt, kind := .manual, status := .approved
                  idempotencyKey := key, isReversal := false
                  reversedTransactionId := none, reason := body.reason
                  adminId := some user.id, batchId := none
                  recoveryFromUserId := none, recoveryReason := none }
      | none =>
        let amt := fl body.amount
        if amt.m ≤ 0 then .error .invalidAmount
        else
          let acc1 := setAcct s.accounts body.toUserId
            { receiver with balance := jsAdd receiver.balance amt }
          createTx { s with accounts := acc1 } fun i =>
            { id := i, fromUserId := none, toUserId := some body.toUserId
              amount := amt, kind := .manual, status := .approved
              idempotencyKey := key, isReversal := false
              reversedTransactionId := none, reason := body.reason
              adminId := some user.id, batchId := none
              recoveryFromUserId := none, recoveryReason := none }
  else .error .invalidTransferType

/-- transferController.approveRequest: admin approves a pending request;
re-validates sender balance at approval time, then debits sender, credits
receiver and flips the entry to approved via document save. -/
def approveRequest (s : St) (admin : Principal) (transactionId : Nat) : Except Err St :=
  match getTx s.txs transactionId with
  | none => .error .txNotFound
  | some t =>
    if t.kind ≠ .request then .error .notRequestKind
    else if t.status ≠ .pending then .error .notPending
    else
      match t.fromUserId, t.toUserId with
      | some f, some r =>
        match getAcct s.accounts f, getAcct s.accounts r with
        | some sender, some receiver =>
          if (compareDecimal sender.balance t.amount).m < 0 then .error .insufficientBalance
          else
            let acc1 := setAcct s.accounts f
              { sender with balance := jsSub sender.balance t.amount }
            let acc2 := setAcct acc1 r
              { receiver with balance := jsAdd receiver.balance t.amount }
            let txs1 := setTx s.txs transactionId fun tx =>
              { tx with status := .approved, adminId := some admin.id }
            .ok { s with accounts := acc2, txs := txs1 }
        | _, _ => .error .userNotFound
      | _, _ => .error .invalidRequestTx

/-- The reason update of rejectRequest:
`requestTx.reason = (requestTx.reason ? requestTx.reason + " | " : "") +
"Rejected: reason"` when a reason is supplied. -/
def rejectReason (old : Option String) (reason : Option String) : Option String :=
  match reason with
  | none => old
  | some r =>
    some ((match old with
           | some o => o ++ " | "
           | none => "") ++ "Rejected: " ++ r)

/-- transferController.rejectRequest: admin rejects a pending request; no
balance change; the rejection reason is appended to the stored reason. -/
def rejectRequest (s : St) (admin : Principal) (transactionId : Nat)
    (reason : Option String) : Except Err St :=
  match getTx s.txs transactionId with
  | none => .error .txNotFound
  | some t =>
    if t.kind ≠ .request then .error .notRequestKind
    else if t.status ≠ .pending then .error .notPending
    else
      let txs1 := setTx s.txs transactionId fun tx =>
        { tx with
          status := .failed
          adminId := some admin.id
          reason := rejectReason tx.reason reason }
      .ok { s with txs := txs1 }

/-- transferController.reverseTransaction: admin reverses an approved,
non-reversal entry; applies the inverse movement (sender is the original
receiver), marks the original reversed and appends a linked approved
reversal entry. -/
def reverseTransaction (s : St) (admin : Principal) (transactionId : Nat)
    (reason : Option String) : Except Err St :=
  match getTx s.txs transactionId with
  | none => .error .txNotFound
  | some t =>
    if t.status = .reversed then .error .alreadyReversed
    else if t.kind = .reversal then .error .cannotReverseReversal
    else if t.status ≠ .approved then .error .onlyApprovedReversible
    else
      match t.fromUserId, t.toUserId with
      | some f, some r =>
        match getAcct s.accounts r, getAcct s.accounts f with
        | some sender, some receiver =>
          if (compareDecimal sender.balance t.amount).m < 0 then
            .error .insufficientForReversal
          else
            let acc1 := setAcct s.accounts r
              { sender with balance := jsSub sender.balance t.amount }
            let acc2 := setAcct acc1 f
              { receiver with balance := jsAdd receiver.balance t.amount }
            let txs1 := setTx s.txs transactionId fun tx => { tx with status := .reversed }
            createTx { s with accounts := acc2, txs := txs1 } fun i =>
              { id := i, fromUserId := some r, toUserId := some f
                amount := t.amount, kind := .reversal, status := .approved
                idempotencyKey := none, isReversal := true
                reversedTransactionId := some t.id, reason := reason
                adminId := some admin.id, batchId := none
                recoveryFromUserId := none, recoveryReason := none }
        | _, _ => .error .userNotFound
      | _, _ => .error .missingParties

/-- Build the daily-mint entries, one per account in snapshot order, with
consecutive fresh ids. -/
def mintTxList (accts : List (Nat × Account)) (startId : Nat) (amt : Dy)
    (batchId : String) (adminId : Nat) : List Tx :=
  match accts with
  | [] => []
  | (k, _) :: rest =>
    { id := startId, fromUserId := none, toUserId := some k
      amount := amt, kind := .dailyMint, status := .approved
      idempotencyKey := none, isReversal := false
      reversedTransactionId := none, reason := none
      adminId := some adminId, batchId := some batchId
      recoveryFromUserId := none, recoveryReason := none }
      :: mintTxList rest (startId + 1) amt batchId adminId

/-- dailyMintController.dailyMint: credit every account in the snapshot by
the (defaulted) mint amount and insert one approved daily-mint entry per
account, all sharing one batch id.  `batchId` stands for the ambient
`daily-mint-${Date.now()}` string.  The per-entry amount validation of
insertMany is one check here because every entry carries the same amount;
a validation failure aborts the whole session (no credit, no entry). -/
def mintAmountOf : Option Dy → Dy
  | some v => fl v
  | none => ⟨10000, 0⟩

def dailyMint (s : St) (admin : Principal) (amountPerUser : Option Dy)
    (batchId : String) : Except Err St :=
  let mintAmount := mintAmountOf amountPerUser
  if mintAmount.m ≤ 0 then .error .invalidMintAmount
  else if s.accounts.isEmpty then .error .noUsersFound
  else if ¬ txAmountValid mintAmount then .error .amountOutOfRange
  else
    .ok { accounts := s.accounts.map fun p =>
            (p.1, { p.2 with balance := jsAdd p.2.balance mintAmount })
          txs := s.txs ++ mintTxList s.accounts s.nextId mintAmount batchId admin.id
          nextId := s.nextId + s.accounts.length }

/-- recoveryController.recoverChips: move the whole balance of a banned
account to a verified account and record one chip-recovery entry.  The
required-ids check is skipped (ids are always present in this model). -/
def recoverChips (s : St) (admin : Principal) (bannedUserId verifiedUserId : Nat)
    (reason : Option String) (key : Option String) : Except Err St :=
  if bannedUserId = verifiedUserId then .error .sameAccount
  else
    match getAcct s.accounts bannedUserId, getAcct s.accounts verifiedUserId with
    | some bu, some vu =>
      if ¬ bu.isBanned then .error .notBanned
      else if ¬ vu.isVerified then .error .notVerified
      else if bu.balance.m ≤ 0 then .error .noChipsToRecover
      else
        let acc1 := setAcct s.accounts bannedUserId { bu with balance := ⟨0, 0⟩ }
        let acc2 := setAcct acc1 verifiedUserId
          { vu with balance := jsAdd vu.balance bu.balance }
        createTx { s with accounts := acc2 } fun i =>
          { id := i, fromUserId := some bannedUserId, toUserId := some verifiedUserId
            amount := bu.balance, kind := .chipRecovery, status := .approved
            idempotencyKey := key, isReversal := false
            reversedTransactionId := none
            reason := some (reason.getD "Chip recovery from banned account")
            adminId := some admin.id, batchId := none
            recoveryFromUserId := some bannedUserId
            recoveryReason := some (reason.getD
              ("Recovered chips from banned account: " ++ bu.email)) }
    | _, _ => .error .userNotFound

/-! ## Idempotency middleware (middleware/idempotency.js) -/

/-- What the idempotency middleware does with a request before the
controller runs. -/
inductive IdemOutcome where
  | proceed (key : Option String)
  | conflict409 (key : String)
  | replay200 (t : Tx)
  deriving DecidableEq, Repr

/-- idempotencyCheck: no key means proceed; a fast-cache hit answers
HTTP 409 "Request already processed" (no transaction in the response); a
durable-log hit replays HTTP 200 with the pre-existing transaction;
otherwise the request proceeds with the key attached. -/
def idempotencyCheck (cache : List String) (txs : List Tx)
    (headerKey : Option String) : IdemOutcome :=
  match headerKey with
  | none => .proceed none
  | some k =>
    if k ∈ cache then .conflict409 k
    else
      match txs.find? (fun t => t.idempotencyKey == some k) with
      | some t => .replay200 t
      | none => .proceed (some k)

/-! ## Transaction store update/delete entry points (models/Transaction.js)

The schema registers pre-hooks on the query middleware
updateOne / findOneAndUpdate / updateMany / findByIdAndUpdate and
deleteOne / findOneAndDelete / deleteMany / findByIdAndDelete that throw
unconditionally, so each of these entry points fails before touching any
document.  Document save is not among them. -/

def txUpdateOne (_s : St) (_filter : Tx → Bool) (_upd : Tx → Tx) : Except Err St :=
  .error .immutable

def txFindOneAndUpdate (_s : St) (_filter : Tx → Bool) (_upd : Tx → Tx) : Except Err St :=
  .error .immutable

def txUpdateMany (_s : St) (_filter : Tx → Bool) (_upd : Tx → Tx) : Except Err St :=
  .error .immutable

def txFindByIdAndUpdate (_s : St) (_id : Nat) (_upd : Tx → Tx) : Except Err St :=
  .error .immutable

def txDeleteOne (_s : St) (_filter : Tx → Bool) : Except Err St :=
  .error .immutable

def txFindOneAndDelete (_s : St) (_filter : Tx → Bool) : Except Err St :=
  .error .immutable

def txDeleteMany (_s : St) (_filter : Tx → Bool) : Except Err St :=
  .error .immutable

def txFindByIdAndDelete (_s : St) (_id : Nat) : Except Err St :=
  .error .immutable

/-! ## Balance projection and reachability -/

/-- Entries counted by the specification's projection formula:
status = approved only. -/
def approvedB (t : Tx) : Bool := t.status == .approved

/-- Entries that have actually moved balances and not been compensated in
place: approved entries, plus reversed entries (a reversed entry's own
balance effect was undone by its paired reversal entry, which is itself
approved and counted, so both must be summed for the totals to match). -/
def effectiveB (t : Tx) : Bool := t.status == .approved || t.status == .reversed

/-- Sum of the exact values of the amounts credited to account `a` by
entries satisfying `ok`. -/
def creditSum (ok : Tx → Bool) (txs : List Tx) (a : Nat) : ℚ :=
  ((txs.filter fun t => ok t && t.toUserId == some a).map fun t => toRat t.amount).sum

/-- Sum of the exact values of the amounts debited from account `a` by
entries satisfying `ok`. -/
def debitSum (ok : Tx → Bool) (txs : List Tx) (a : Nat) : ℚ :=
  ((txs.filter fun t => ok t && t.fromUserId == some a).map fun t => toRat t.amount).sum

/-- Net projection of account `a` from the entries satisfying `ok`. -/
def projWith (ok : Tx → Bool) (txs : List Tx) (a : Nat) : ℚ :=
  creditSum ok txs a - debitSum ok txs a

/-- The specification's projection: approved entries only. -/
def projApproved (txs : List Tx) (a : Nat) : ℚ := projWith approvedB txs a

/-- The projection that the code actually maintains: approved or reversed
entries. -/
def projEffective (txs : List Tx) (a : Nat) : ℚ := projWith effectiveB txs a

/-- The consistency statement: every stored balance equals the given
projection of the transaction log. -/
def InvWith (ok : Tx → Bool) (s : St) : Prop :=
  ∀ a acct, getAcct s.accounts a = some acct →
    toRat acct.balance = projWith ok s.txs a

/-- States reachable from an empty ledger (all balances zero, no entries,
distinct account ids) by completed ledger operations. -/
inductive Reach : St → Prop where
  | genesis (accts : List (Nat × Account)) (nextId : Nat)
      (hzero : ∀ p ∈ accts, p.2.balance = ⟨0, 0⟩)
      (hnodup : (accts.map Prod.fst).Nodup) :
      Reach ⟨accts, [], nextId⟩
  | stepTransfer {s s' : St} (u : Principal) (ty : TransferType) (body : TransferBody)
      (key : Option String) : Reach s → transfer s u ty body key = .ok s' → Reach s'
  | stepApprove {s s' : St} (u : Principal) (i : Nat) :
      Reach s → approveRequest s u i = .ok s' → Reach s'
  | stepReject {s s' : St} (u : Principal) (i : Nat) (r : Option String) :
      Reach s → rejectRequest s u i r = .ok s' → Reach s'
  | stepReverse {s s' : St} (u : Principal) (i : Nat) (r : Option String) :
      Reach s → reverseTransaction s u i r = .ok s' → Reach s'
  | stepMint {s s' : St} (u : Principal) (a : Option Dy) (b : String) :
      Reach s → dailyMint s u a b = .ok s' → Reach s'
  | stepRecover {s s' : St} (u : Principal) (x y : Nat) (r k : Option String) :
      Reach s → recoverChips s u x y r k = .ok s' → Reach s'

/-- The value of `d` is a whole number of magnitude at most `B` (float64
arithmetic is exact on such values as long as results stay within 2^53). -/
def WholeLe (d : Dy) (B : Nat) : Prop := ∃ n : ℤ, toRat d = (n : ℚ) ∧ n.natAbs ≤ B

/-- A store in the float64-exact regime: every balance and every logged
amount is a whole number of magnitude at most 2^52. -/
def SafeSt (s : St) : Prop :=
  (∀ a acct, getAcct s.accounts a = some acct → WholeLe acct.balance (2 ^ 52)) ∧
  (∀ t ∈ s.txs, WholeLe t.amount (2 ^ 52))

/-- An optional mint amount in the float64-exact regime. -/
def WholeAmtOpt : Option Dy → Prop
  | none => True
  | some d => WholeLe d (2 ^ 52)

/-- Reachability along a trace that stays in the float64-exact regime:
every traversed state satisfies `SafeSt` and every caller-supplied amount
is a whole number of magnitude at most 2^52. -/
inductive SafeReach : St → Prop where
  | genesis (accts : List (Nat × Account)) (nextId : Nat)
      (hzero : ∀ p ∈ accts, p.2.balance = ⟨0, 0⟩)
      (hnodup : (accts.map Prod.fst).Nodup) :
      SafeReach ⟨accts, [], nextId⟩
  | stepTransfer {s s' : St} (u : Principal) (ty : TransferType) (body : TransferBody)
      (key : Option String) : SafeReach s → SafeSt s → WholeLe body.amount (2 ^ 52) →
      transfer s u ty body key = .ok s' → SafeReach s'
  | stepApprove {s s' : St} (u : Principal) (i : Nat) :
      SafeReach s → SafeSt s → approveRequest s u i = .ok s' → SafeReach s'
  | stepReject {s s' : St} (u : Principal) (i : Nat) (r : Option String) :
      SafeReach s → SafeSt s → rejectRequest s u i r = .ok s' → SafeReach s'
  | stepReverse {s s' : St} (u : Principal) (i : Nat) (r : Option String) :
      SafeReach s → SafeSt s → reverseTransaction s u i r = .ok s' → SafeReach s'
  | stepMint {s s' : St} (u : Principal) (a : Option Dy) (b : String) :
      SafeReach s → SafeSt s → WholeAmtOpt a → dailyMint s u a b = .ok s' → SafeReach s'
  | stepRecover {s s' : St} (u : Principal) (x y : Nat) (r k : Option String) :
      SafeReach s → SafeSt s → recoverChips s u x y r k = .ok s' → SafeReach s'

/-- Every logged entry either has no sender (a mint-style credit) or has
both parties present and distinct (an auxiliary invariant of reachable
stores, needed because the in-memory sender and receiver documents are
saved back independently). -/
def TxParties (s : St) : Prop :=
  ∀ t ∈ s.txs, t.fromUserId = none ∨
    ∃ f r, t.fromUserId = some f ∧ t.toUserId = some r ∧ f ≠ r

/-- Account ids are pairwise distinct. -/
def NodupKeys (s : St) : Prop := (s.accounts.map Prod.fst).Nodup

/-! ## Concrete scenario states -/

/-- Extract the success state of an operation (scenario plumbing only). -/
def stepOk (r : Except Err St) (fallback : St) : St :=
  match r with
  | .ok s => s
  | .error _ => fallback

/-- Account literal helper. -/
def mkAcct (email : String) (role : Role) (bal : Dy)
    (banned verified : Bool) : Account :=
  { email := email, role := role, balance := bal
    isBanned := banned, isVerified := verified }

/-- The admin principal used in the scenarios. -/
def adminP : Principal := ⟨1, .admin⟩

/-- Scenario: empty three-account ledger (admin 1, players 2 and 3). -/
def g0 : St :=
  { accounts :=
      [ (1, mkAcct "admin@example.com" .admin ⟨0, 0⟩ false false)
      , (2, mkAcct "alice@example.com" .player ⟨0, 0⟩ false false)
      , (3, mkAcct "bob@example.com" .player ⟨0, 0⟩ false false) ]
    txs := []
    nextId := 100 }

/-- Mint 100 to account 2 (entry 100). -/
def g1 : St := stepOk
  (transfer g0 adminP .manual
    { toUserId := 2, fromUserId := none, amount := ⟨100, 0⟩, reason := none } none) g0

/-- Manual transfer of 30 from account 2 to account 3 (entry 101). -/
def g2 : St := stepOk
  (transfer g1 adminP .manual
    { toUserId := 3, fromUserId := some 2, amount := ⟨30, 0⟩, reason := none } none) g1

/-- Reverse entry 101 (creates reversal entry 102). -/
def g3 : St := stepOk
  (reverseTransaction g2 adminP 101 (some "undo")) g2

/-- Fractional-amount scenario: balances holding the doubles of 1 and 0.1. -/
def h0 : St :=
  { accounts :=
      [ (1, mkAcct "admin@example.com" .admin ⟨0, 0⟩ false false)
      , (2, mkAcct "alice@example.com" .player ⟨1, 0⟩ false false)
      , (3, mkAcct "bob@example.com" .player (flQ 1 10) false false) ]
    txs := []
    nextId := 200 }

/-- Manual transfer of the double of 0.2 from account 2 to account 3
(entry 200). -/
def h1 : St := stepOk
  (transfer h0 adminP .manual
    { toUserId := 3, fromUserId := some 2, amount := flQ 2 10, reason := none } none) h0

/-- Reversal of entry 200. -/
def h2 : St := stepOk (reverseTransaction h1 adminP 200 (some "undo")) h1

/-- The combined induction invariant: every balance matches the
approved-or-reversed projection, every entry has absent or distinct
parties, and account ids are distinct. -/
def GoodSt (s : St) : Prop := InvWith effectiveB s ∧ TxParties s ∧ NodupKeys s

/-- Net contribution of one entry to account `a` under the filter `ok`. -/
def contrib (ok : Tx → Bool) (t : Tx) (a : Nat) : ℚ :=
  (if ok t && t.toUserId == some a then toRat t.amount else 0) -
  (if ok t && t.fromUserId == some a then toRat t.amount else 0)

/-- Bare ledger-entry literal for scenarios. -/
def mkTx (i : Nat) (fu tu : Option Nat) (amt : Dy) (k : TxKind) (st : TxStatus) : Tx :=
  { id := i, fromUserId := fu, toUserId := tu, amount := amt, kind := k, status := st
    idempotencyKey := none, isReversal := false, reversedTransactionId := none
    reason := none, adminId := none, batchId := none
    recoveryFromUserId := none, recoveryReason := none }

/-- Scenario: a pending request of 5 chips from account 2 (balance 40) to
account 3 (balance 7), entry 300. -/
def p0 : St :=
  { accounts :=
      [ (1, mkAcct "admin@example.com" .admin ⟨0, 0⟩ false false)
      , (2, mkAcct "alice@example.com" .player ⟨40, 0⟩ false false)
      , (3, mkAcct "bob@example.com" .player ⟨7, 0⟩ false false) ]
    txs := [mkTx 300 (some 2) (some 3) ⟨5, 0⟩ .request .pending]
    nextId := 301 }

/-- Scenario: a pending request for the double of 0.2 from account 2
(balance 1) to account 3 (balance the double of 0.1), entry 400. -/
def q9 : St :=
  { accounts :=
      [ (1, mkAcct "admin@example.com" .admin ⟨0, 0⟩ false false)
      , (2, mkAcct "alice@example.com" .player ⟨1, 0⟩ false false)
      , (3, mkAcct "bob@example.com" .player (flQ 1 10) false false) ]
    txs := [mkTx 400 (some 2) (some 3) (flQ 2 10) .request .pending]
    nextId := 401 }

/-- Scenario: banned account 4 holding the double of 0.2, verified
account 5 holding the double of 0.1. -/
def q7 : St :=
  { accounts :=
      [ (4, mkAcct "cheat@example.com" .player (flQ 2 10) true false)
      , (5, mkAcct "good@example.com" .player (flQ 1 10) false true) ]
    txs := []
    nextId := 500 }

/-- Scenario: banned account 4 with balance 500, verified account 5 with
balance 100 (the specification's chip-recovery example). -/
def w7 : St :=
  { accounts :=
      [ (4, mkAcct "cheat@example.com" .player ⟨500, 0⟩ true false)
      , (5, mkAcct "good@example.com" .player ⟨100, 0⟩ false true) ]
    txs := []
    nextId := 600 }

/-- Scenario: one player holding the double of 0.2. -/
def q8 : St :=
  { accounts := [ (2, mkAcct "alice@example.com" .player (flQ 2 10) false false) ]
    txs := []
    nextId := 700 }

/-- Scenario: one account at the 20-trillion cap. -/
def q5 : St :=
  { accounts := [ (2, mkAcct "alice@example.com" .player ⟨20000000000000, 0⟩ false false) ]
    txs := []
    nextId := 800 }

/-- A committed entry carrying idempotency key "k1". -/
def c4tx : Tx := { mkTx 900 (some 2) (some 3) ⟨5, 0⟩ .manual .approved with
  idempotencyKey := some "k1" }

/-! ### Facts about the numeric model -/

theorem lg2_spec : ∀ (fuel n : Nat), 0 < n → n ≤ fuel →
    2 ^ lg2 fuel n ≤ n ∧ n < 2 ^ (lg2 fuel n + 1) := by
  intro fuel
  induction fuel with
  | zero => intro n h0 h1; omega
  | succ f ih =>
    intro n h0 h1
    rw [lg2]
    by_cases h2 : n < 2
    · simp only [h2, if_true]
      constructor
      · simpa using h0
      · simpa using h2
    · simp only [h2, if_false]
      have hrec := ih (n / 2) (by omega) (by omega)
      constructor
      · have h3 : 2 ^ lg2 f (n / 2) * 2 ≤ (n / 2) * 2 := Nat.mul_le_mul_right 2 hrec.1
        calc 2 ^ (lg2 f (n / 2) + 1) = 2 ^ lg2 f (n / 2) * 2 := by rw [Nat.pow_succ]
          _ ≤ (n / 2) * 2 := h3
          _ ≤ n := by omega
      · have h3 : (n / 2) * 2 + 2 ≤ 2 ^ (lg2 f (n / 2) + 1) * 2 := by
          have := hrec.2; omega
        calc n < (n / 2) * 2 + 2 := by omega
          _ ≤ 2 ^ (lg2 f (n / 2) + 1) * 2 := h3
          _ = 2 ^ (lg2 f (n / 2) + 1 + 1) := by ring

theorem natLg_spec (n : Nat) (h0 : 0 < n) :
    2 ^ natLg n ≤ n ∧ n < 2 ^ (natLg n + 1) :=
  lg2_spec n n h0 le_rfl

theorem natLg_unique (n j : Nat) (h0 : 0 < n) (h1 : 2 ^ j ≤ n) (h2 : n < 2 ^ (j + 1)) :
    natLg n = j := by
  have hs := natLg_spec n h0
  by_contra hne
  rcases Nat.lt_or_ge (natLg n) j with h | h
  · have h3 : (2 : Nat) ^ (natLg n + 1) ≤ 2 ^ j := Nat.pow_le_pow_right (by norm_num) h
    omega
  · have h4 : j + 1 ≤ natLg n := by omega
    have h3 : (2 : Nat) ^ (j + 1) ≤ 2 ^ natLg n := Nat.pow_le_pow_right (by norm_num) h4
    omega

theorem natLg_mul_pow (x k : Nat) (hx : 0 < x) : natLg (x * 2 ^ k) = natLg x + k := by
  have hs := natLg_spec x hx
  refine natLg_unique _ _ (by positivity) ?_ ?_
  · calc 2 ^ (natLg x + k) = 2 ^ natLg x * 2 ^ k := by rw [pow_add]
      _ ≤ x * 2 ^ k := Nat.mul_le_mul_right _ hs.1
  · have h2 : (0:Nat) < 2 ^ k := by positivity
    calc x * 2 ^ k < 2 ^ (natLg x + 1) * 2 ^ k := mul_lt_mul_of_pos_right hs.2 h2
      _ = 2 ^ (natLg x + 1 + k) := (pow_add 2 _ _).symm
      _ = 2 ^ (natLg x + k + 1) := by rw [show natLg x + 1 + k = natLg x + k + 1 from by omega]

theorem rndShift_dvd (p t : Nat) (ht : t ≠ 0) (hd : 2 ^ t ∣ p) :
    rndShift p t = p / 2 ^ t := by
  obtain ⟨c, rfl⟩ := hd
  have hr : 2 ^ t * c % 2 ^ t = 0 := Nat.mul_mod_right _ _
  have hh : (0:Nat) < 2 ^ (t - 1) := by positivity
  simp only [rndShift, hr, if_neg ht, if_pos hh]

theorem rndShift_pos (p t : Nat) (hp : 2 ^ t ≤ p) : 0 < rndShift p t := by
  have hq : 0 < p / 2 ^ t := (Nat.one_le_div_iff (by positivity)).2 hp
  have hp0 : 0 < p := lt_of_lt_of_le (by positivity) hp
  simp only [rndShift]
  split_ifs
  · exact hp0
  · exact hq
  · exact Nat.succ_pos _
  · exact hq
  · exact Nat.succ_pos _

theorem fl_eq_self (d : Dy) (h : d.m.natAbs ≤ 2 ^ 53) : fl d = d := by
  simp only [fl, h, if_pos]

theorem natLg_ge_of_big (a : Nat) (h : 2 ^ 53 < a) : 53 ≤ natLg a := by
  have hs := natLg_spec a (by omega)
  by_contra hlt
  have h4 : natLg a + 1 ≤ 53 := by omega
  have h3 : (2 : Nat) ^ (natLg a + 1) ≤ 2 ^ 53 := Nat.pow_le_pow_right (by norm_num) h4
  omega

theorem fl_round_pos (d : Dy) (h : ¬ d.m.natAbs ≤ 2 ^ 53) :
    0 < rndShift d.m.natAbs (natLg d.m.natAbs - 52) := by
  have ha : 2 ^ 53 < d.m.natAbs := by omega
  have h53 := natLg_ge_of_big _ ha
  have hs := natLg_spec d.m.natAbs (by omega)
  refine rndShift_pos _ _ ?_
  calc 2 ^ (natLg d.m.natAbs - 52) ≤ 2 ^ natLg d.m.natAbs :=
        Nat.pow_le_pow_right (by norm_num) (by omega)
    _ ≤ d.m.natAbs := hs.1

theorem fl_m_neg_iff (d : Dy) : (fl d).m < 0 ↔ d.m < 0 := by
  by_cases h : d.m.natAbs ≤ 2 ^ 53
  · rw [fl_eq_self d h]
  · have hn := fl_round_pos d h
    have hn' : (0 : Int) < (rndShift d.m.natAbs (natLg d.m.natAbs - 52) : Int) := by
      exact_mod_cast hn
    simp only [fl, h, if_false]
    by_cases hm : d.m < 0
    · rw [if_pos hm]
      omega
    · rw [if_neg hm]
      omega

theorem fl_m_nonpos_iff (d : Dy) : (fl d).m ≤ 0 ↔ d.m ≤ 0 := by
  by_cases h : d.m.natAbs ≤ 2 ^ 53
  · rw [fl_eq_self d h]
  · have hn := fl_round_pos d h
    have hn' : (0 : Int) < (rndShift d.m.natAbs (natLg d.m.natAbs - 52) : Int) := by
      exact_mod_cast hn
    simp only [fl, h, if_false]
    by_cases hm : d.m < 0
    · rw [if_pos hm]
      omega
    · rw [if_neg hm]
      omega

theorem two_zpow_pos (e : Int) : (0 : ℚ) < (2 : ℚ) ^ e :=
  zpow_pos (by norm_num) e

theorem toRat_neg_iff (d : Dy) : toRat d < 0 ↔ d.m < 0 := by
  have h2 := two_zpow_pos d.e
  rw [toRat, mul_neg_iff]
  constructor
  · rintro (⟨_, hc⟩ | ⟨hc, _⟩)
    · exact absurd hc h2.asymm
    · exact_mod_cast hc
  · intro hm
    exact Or.inr ⟨by exact_mod_cast hm, h2⟩

theorem toRat_nonpos_iff (d : Dy) : toRat d ≤ 0 ↔ d.m ≤ 0 := by
  have h2 := two_zpow_pos d.e
  rw [toRat]
  constructor
  · intro h
    by_contra hm
    have hm' : (0 : ℚ) < (d.m : ℚ) := by exact_mod_cast by omega
    nlinarith
  · intro hm
    have hm' : (d.m : ℚ) ≤ 0 := by exact_mod_cast hm
    exact mul_nonpos_of_nonpos_of_nonneg hm' h2.le

theorem toRat_pos_iff (d : Dy) : 0 < toRat d ↔ 0 < d.m := by
  rw [← not_le, toRat_nonpos_iff, not_le]

theorem toRat_dneg (x : Dy) : toRat (dneg x) = - toRat x := by
  simp only [toRat, dneg]
  push_cast
  ring

theorem toRat_dadd (x y : Dy) : toRat (dadd x y) = toRat x + toRat y := by
  have h2 : (2 : ℚ) ≠ 0 := by norm_num
  by_cases h : x.e ≤ y.e
  · have hk : (((y.e - x.e).toNat : Int)) = y.e - x.e := Int.toNat_of_nonneg (by omega)
    simp only [toRat, dadd, twoPow, h, if_pos]
    push_cast
    rw [add_mul, mul_assoc]
    congr 1
    rw [← zpow_natCast (2:ℚ) (y.e - x.e).toNat, ← zpow_add₀ h2]
    congr 1
    rw [hk]
    ring
  · have hk : (((x.e - y.e).toNat : Int)) = x.e - y.e := Int.toNat_of_nonneg (by omega)
    simp only [toRat, dadd, twoPow, h, if_neg]
    push_cast
    rw [add_mul, mul_assoc]
    congr 1
    rw [← zpow_natCast (2:ℚ) (x.e - y.e).toNat, ← zpow_add₀ h2]
    congr 1
    rw [hk]
    ring

theorem toRat_dsub (x y : Dy) : toRat (dsub x y) = toRat x - toRat y := by
  rw [dsub, toRat_dadd, toRat_dneg]
  ring

theorem toRat_fl_int (d : Dy) (n : Int) (hval : toRat d = (n : ℚ))
    (hb : n.natAbs ≤ 2 ^ 53) : toRat (fl d) = toRat d := by
  by_cases hm : d.m.natAbs ≤ 2 ^ 53
  · rw [fl_eq_self d hm]
  · have hmBig : 2 ^ 53 < d.m.natAbs := by omega
    have h2 : (2 : ℚ) ≠ 0 := by norm_num
    have habs : |toRat d| = (d.m.natAbs : ℚ) * (2 : ℚ) ^ d.e := by
      rw [toRat, abs_mul, abs_of_pos (two_zpow_pos d.e)]
      congr 1
      rw [Int.cast_natAbs, Int.cast_abs]
    have he : d.e < 0 := by
      by_contra hge
      push_neg at hge
      have h1 : (1 : ℚ) ≤ (2 : ℚ) ^ d.e := by
        rw [← Int.toNat_of_nonneg hge, zpow_natCast]
        exact one_le_pow₀ (by norm_num)
      have h3 : (d.m.natAbs : ℚ) ≤ |toRat d| := by
        rw [habs]
        nlinarith [Nat.cast_nonneg (α := ℚ) d.m.natAbs]
      have h4 : |toRat d| = (n.natAbs : ℚ) := by
        rw [hval, Int.cast_natAbs, Int.cast_abs]
      have h5 : (d.m.natAbs : ℚ) ≤ (n.natAbs : ℚ) := by rw [h4] at h3; exact h3
      have h6 : d.m.natAbs ≤ n.natAbs := by exact_mod_cast h5
      omega
    set k := (-d.e).toNat with hkdef
    have hek : d.e = -(k : ℤ) := by omega
    have hm_eq : d.m = n * 2 ^ k := by
      have h1 : (d.m : ℚ) = (n : ℚ) * (2 : ℚ) ^ (k : ℤ) := by
        have hv := hval
        rw [toRat] at hv
        calc (d.m : ℚ) = (d.m : ℚ) * ((2 : ℚ) ^ d.e * (2 : ℚ) ^ (k : ℤ)) := by
              rw [← zpow_add₀ h2, show d.e + (k : ℤ) = 0 from by omega]
              simp
          _ = ((d.m : ℚ) * (2 : ℚ) ^ d.e) * (2 : ℚ) ^ (k : ℤ) := by ring
          _ = (n : ℚ) * (2 : ℚ) ^ (k : ℤ) := by rw [hv]
      have h3 : ((n * 2 ^ k : ℤ) : ℚ) = (n : ℚ) * (2 : ℚ) ^ (k : ℤ) := by
        push_cast
        rw [← zpow_natCast (2:ℚ) k]
      exact_mod_cast h1.trans h3.symm
    have habs2 : d.m.natAbs = n.natAbs * 2 ^ k := by
      rw [hm_eq, Int.natAbs_mul, Int.natAbs_pow]
      rfl
    have hn0 : n ≠ 0 := by
      rintro rfl
      simp at habs2
      omega
    have hnpos : 0 < n.natAbs := Int.natAbs_pos.2 hn0
    have hlg : natLg d.m.natAbs = natLg n.natAbs + k := by
      rw [habs2]
      exact natLg_mul_pow _ _ hnpos
    have hpow53 : (2:ℕ) ^ 53 = 9007199254740992 := by norm_num
    have ht1 : 1 ≤ natLg d.m.natAbs - 52 := by
      have := natLg_ge_of_big _ hmBig
      omega
    have hlgn : natLg n.natAbs ≤ 53 := by
      have hs := natLg_spec n.natAbs hnpos
      by_contra h54
      have hx : (2:ℕ) ^ 54 ≤ 2 ^ natLg n.natAbs := Nat.pow_le_pow_right (by norm_num) (by omega)
      have hy : (2:ℕ) ^ 54 ≤ n.natAbs := le_trans hx hs.1
      have : (2:ℕ) ^ 54 = 18014398509481984 := by norm_num
      omega
    have hdvd : 2 ^ (natLg d.m.natAbs - 52) ∣ d.m.natAbs := by
      by_cases h52 : natLg n.natAbs ≤ 52
      · have htk : natLg d.m.natAbs - 52 ≤ k := by omega
        nth_rewrite 2 [habs2]
        exact Dvd.dvd.mul_left (pow_dvd_pow 2 htk) _
      · have h53 : natLg n.natAbs = 53 := by omega
        have hs := natLg_spec n.natAbs hnpos
        rw [h53] at hs
        have hn53 : n.natAbs = 2 ^ 53 := by omega
        have htk : natLg d.m.natAbs - 52 = k + 1 := by omega
        rw [htk, habs2, hn53, ← pow_add]
        exact pow_dvd_pow 2 (by omega)
    obtain ⟨c, hc⟩ := hdvd
    have hrs : rndShift d.m.natAbs (natLg d.m.natAbs - 52) = c := by
      rw [rndShift_dvd _ _ (by omega) ⟨c, hc⟩]
      exact Nat.div_eq_of_eq_mul_right (by positivity) hc
    have hfl : fl d = ⟨(if d.m < 0 then -(c : ℤ) else (c : ℤ)),
        d.e + (natLg d.m.natAbs - 52 : ℕ)⟩ := by
      simp only [fl, hm, if_false, hrs]
    have hcast : ((d.m.natAbs : ℕ) : ℚ) = (c : ℚ) * (2 : ℚ) ^ ((natLg d.m.natAbs - 52 : ℕ) : ℤ) := by
      have h1 : ((d.m.natAbs : ℕ) : ℚ) = ((2 ^ (natLg d.m.natAbs - 52) * c : ℕ) : ℚ) := by
        exact_mod_cast congrArg (fun z : ℕ => (z : ℚ)) hc
      rw [h1]
      push_cast
      rw [← zpow_natCast (2:ℚ)]
      ring
    rw [hfl, toRat, toRat]
    simp only
    rw [zpow_add₀ h2]
    by_cases hsign : d.m < 0
    · rw [if_pos hsign]
      have hmq : (d.m : ℚ) = -((d.m.natAbs : ℕ) : ℚ) := by
        rw [Int.cast_natAbs, Int.cast_abs,
          abs_of_nonpos (by exact_mod_cast hsign.le : (d.m : ℚ) ≤ 0), neg_neg]
      rw [hmq, hcast]
      push_cast
      ring
    · rw [if_neg hsign]
      have hmq : (d.m : ℚ) = ((d.m.natAbs : ℕ) : ℚ) := by
        rw [Int.cast_natAbs, Int.cast_abs,
          abs_of_nonneg (by exact_mod_cast le_of_not_lt hsign : (0 : ℚ) ≤ (d.m : ℚ))]
      rw [hmq, hcast]
      push_cast
      ring

theorem jsAdd_exact (x y : Dy) (nx ny : Int) (hx : toRat x = (nx : ℚ))
    (hy : toRat y = (ny : ℚ)) (hb : (nx + ny).natAbs ≤ 2 ^ 53) :
    toRat (jsAdd x y) = toRat x + toRat y := by
  rw [jsAdd, toRat_fl_int (dadd x y) (nx + ny) (by rw [toRat_dadd, hx, hy]; push_cast; ring) hb,
    toRat_dadd]

theorem jsSub_exact (x y : Dy) (nx ny : Int) (hx : toRat x = (nx : ℚ))
    (hy : toRat y = (ny : ℚ)) (hb : (nx - ny).natAbs ≤ 2 ^ 53) :
    toRat (jsSub x y) = toRat x - toRat y := by
  have hd : toRat (dadd x (dneg y)) = toRat x - toRat y := by
    rw [toRat_dadd, toRat_dneg]
    ring
  rw [jsSub, toRat_fl_int (dadd x (dneg y)) (nx - ny) (by rw [hd, hx, hy]; push_cast; ring) hb, hd]

theorem jsSub_m_neg_iff (x y : Dy) : (jsSub x y).m < 0 ↔ toRat x < toRat y := by
  rw [jsSub, fl_m_neg_iff, ← toRat_neg_iff, toRat_dadd, toRat_dneg]
  constructor <;> intro h <;> linarith

theorem jsSub_m_nonpos_iff (x y : Dy) : (jsSub x y).m ≤ 0 ↔ toRat x ≤ toRat y := by
  rw [jsSub, fl_m_nonpos_iff, ← toRat_nonpos_iff, toRat_dadd, toRat_dneg]
  constructor <;> intro h <;> linarith

theorem dleB_iff (x y : Dy) : dleB x y = true ↔ toRat x ≤ toRat y := by
  rw [dleB, decide_eq_true_eq, ← toRat_nonpos_iff, toRat_dsub]
  constructor <;> intro h <;> linarith

theorem fl_m_pos_iff (d : Dy) : 0 < (fl d).m ↔ 0 < d.m := by
  have h1 := fl_m_nonpos_iff d
  omega

theorem toRat_int (n : Int) : toRat ⟨n, 0⟩ = (n : ℚ) := by
  simp [toRat]

theorem toRat_fl (d : Dy) (n : Int) (hval : toRat d = (n : ℚ))
    (hb : n.natAbs ≤ 2 ^ 53) : toRat (fl d) = (n : ℚ) := by
  rw [toRat_fl_int d n hval hb, hval]

/-! ### Store lemmas -/

theorem getAcct_setAcct_self (l : List (Nat × Account)) (k : Nat) (v a : Account)
    (h : getAcct l k = some a) : getAcct (setAcct l k v) k = some v := by
  induction l with
  | nil => simp [getAcct] at h
  | cons p rest ih =>
    obtain ⟨k1, a1⟩ := p
    by_cases hk : k1 = k
    · subst hk
      simp [getAcct, setAcct]
    · simp only [getAcct, setAcct, hk, if_false] at h ⊢
      exact ih h

theorem getAcct_setAcct_ne (l : List (Nat × Account)) (k k' : Nat) (v : Account)
    (h : k ≠ k') : getAcct (setAcct l k v) k' = getAcct l k' := by
  induction l with
  | nil => simp [getAcct, setAcct]
  | cons p rest ih =>
    obtain ⟨k1, a1⟩ := p
    by_cases hk : k1 = k
    · subst hk
      simp only [setAcct, if_pos rfl, getAcct, if_neg h]
    · simp only [setAcct, if_neg hk, getAcct]
      by_cases hk2 : k1 = k'
      · rw [if_pos hk2, if_pos hk2]
      · rw [if_neg hk2, if_neg hk2]
        exact ih

theorem setAcct_keys (l : List (Nat × Account)) (k : Nat) (v : Account) :
    (setAcct l k v).map Prod.fst = l.map Prod.fst := by
  induction l with
  | nil => rfl
  | cons p rest ih =>
    obtain ⟨k1, a1⟩ := p
    by_cases hk : k1 = k
    · simp [setAcct, hk]
    · simp [setAcct, hk, ih]

theorem getAcct_map (l : List (Nat × Account)) (g : Account → Account) (a : Nat) :
    getAcct (l.map fun p => (p.1, g p.2)) a = (getAcct l a).map g := by
  induction l with
  | nil => rfl
  | cons p rest ih =>
    obtain ⟨k1, a1⟩ := p
    by_cases hk : k1 = a
    · simp [getAcct, hk]
    · simp [getAcct, hk, ih]

theorem getAcct_map2 (l : List (Nat × Account)) (g : Nat × Account → Account) (a : Nat) :
    getAcct (l.map fun p => (p.1, g p)) a = (getAcct l a).map fun acct => g (a, acct) := by
  induction l with
  | nil => rfl
  | cons p rest ih =>
    obtain ⟨k, acct⟩ := p
    by_cases hk : k = a
    · subst hk
      simp [getAcct]
    · simp [getAcct, hk, ih]

theorem getTx_id (txs : List Tx) (i : Nat) (t : Tx) (h : getTx txs i = some t) :
    t.id = i := by
  induction txs with
  | nil => simp [getTx] at h
  | cons t1 rest ih =>
    by_cases hk : t1.id = i
    · simp only [getTx, if_pos hk] at h
      cases h
      exact hk
    · simp only [getTx, if_neg hk] at h
      exact ih h

theorem getTx_mem (txs : List Tx) (i : Nat) (t : Tx) (h : getTx txs i = some t) :
    t ∈ txs := by
  induction txs with
  | nil => simp [getTx] at h
  | cons t1 rest ih =>
    by_cases hk : t1.id = i
    · simp only [getTx, if_pos hk] at h
      cases h
      exact List.mem_cons_self _ _
    · simp only [getTx, if_neg hk] at h
      exact List.mem_cons_of_mem _ (ih h)

theorem getAcct_mem (l : List (Nat × Account)) (a : Nat) (acct : Account)
    (h : getAcct l a = some acct) : (a, acct) ∈ l := by
  induction l with
  | nil => simp [getAcct] at h
  | cons p rest ih =>
    obtain ⟨k1, a1⟩ := p
    by_cases hk : k1 = a
    · simp only [getAcct, if_pos hk] at h
      cases h
      subst hk
      exact List.mem_cons_self _ _
    · simp only [getAcct, if_neg hk] at h
      exact List.mem_cons_of_mem _ (ih h)

theorem setTx_mem (txs : List Tx) (i : Nat) (f : Tx → Tx) (t' : Tx)
    (h : t' ∈ setTx txs i f) : t' ∈ txs ∨ ∃ t, t ∈ txs ∧ t' = f t := by
  induction txs with
  | nil => simp [setTx] at h
  | cons t1 rest ih =>
    by_cases hk : t1.id = i
    · simp only [setTx, if_pos hk] at h
      rcases List.mem_cons.1 h with h1 | h1
      · exact Or.inr ⟨t1, List.mem_cons_self _ _, h1⟩
      · exact Or.inl (List.mem_cons_of_mem _ h1)
    · simp only [setTx, if_neg hk] at h
      rcases List.mem_cons.1 h with h1 | h1
      · exact Or.inl (h1 ▸ List.mem_cons_self _ _)
      · rcases ih h1 with h2 | ⟨t, ht, h2⟩
        · exact Or.inl (List.mem_cons_of_mem _ h2)
        · exact Or.inr ⟨t, List.mem_cons_of_mem _ ht, h2⟩

/-! ### Projection lemmas -/

theorem projWith_nil (ok : Tx → Bool) (a : Nat) : projWith ok [] a = 0 := by
  simp [projWith, creditSum, debitSum]

theorem projWith_cons (ok : Tx → Bool) (t : Tx) (ts : List Tx) (a : Nat) :
    projWith ok (t :: ts) a = contrib ok t a + projWith ok ts a := by
  simp only [projWith, creditSum, debitSum, contrib, List.filter_cons]
  by_cases h1 : (ok t && t.toUserId == some a) = true <;>
    by_cases h2 : (ok t && t.fromUserId == some a) = true <;>
      simp [h1, h2] <;> ring

theorem projWith_append (ok : Tx → Bool) (xs ys : List Tx) (a : Nat) :
    projWith ok (xs ++ ys) a = projWith ok xs a + projWith ok ys a := by
  induction xs with
  | nil => simp [projWith_nil]
  | cons t rest ih =>
    rw [List.cons_append, projWith_cons, projWith_cons, ih]
    ring

theorem projWith_setTx (ok : Tx → Bool) (txs : List Tx) (i : Nat) (f : Tx → Tx)
    (a : Nat) (t : Tx) (h : getTx txs i = some t) :
    projWith ok (setTx txs i f) a =
      projWith ok txs a + (contrib ok (f t) a - contrib ok t a) := by
  induction txs with
  | nil => simp [getTx] at h
  | cons t1 rest ih =>
    by_cases hk : t1.id = i
    · simp only [getTx, if_pos hk] at h
      cases h
      simp only [setTx, if_pos hk]
      rw [projWith_cons, projWith_cons]
      ring
    · simp only [getTx, if_neg hk] at h
      simp only [setTx, if_neg hk]
      rw [projWith_cons, projWith_cons, ih h]
      ring

theorem contrib_not_counted (ok : Tx → Bool) (t : Tx) (a : Nat) (h : ok t = false) :
    contrib ok t a = 0 := by
  simp [contrib, h]

theorem contrib_counted (ok : Tx → Bool) (t : Tx) (a : Nat) (h : ok t = true) :
    contrib ok t a = (if t.toUserId == some a then toRat t.amount else 0) -
      (if t.fromUserId == some a then toRat t.amount else 0) := by
  simp [contrib, h]

theorem contrib_irrelevant (ok : Tx → Bool) (t : Tx) (a : Nat)
    (hto : t.toUserId ≠ some a) (hfrom : t.fromUserId ≠ some a) :
    contrib ok t a = 0 := by
  have h1 : ¬ (ok t && t.toUserId == some a) = true := by
    simp only [Bool.and_eq_true, beq_iff_eq]
    rintro ⟨-, h⟩
    exact hto h
  have h2 : ¬ (ok t && t.fromUserId == some a) = true := by
    simp only [Bool.and_eq_true, beq_iff_eq]
    rintro ⟨-, h⟩
    exact hfrom h
  simp only [contrib, if_neg h1, if_neg h2]
  ring

theorem projWith_mintTxList_notMem (ok : Tx → Bool) (accts : List (Nat × Account))
    (n : Nat) (amt : Dy) (b : String) (adm : Nat) (a : Nat)
    (h : a ∉ accts.map Prod.fst) :
    projWith ok (mintTxList accts n amt b adm) a = 0 := by
  induction accts generalizing n with
  | nil => simp [mintTxList, projWith_nil]
  | cons p rest ih =>
    obtain ⟨k, acct⟩ := p
    simp only [List.map_cons, List.mem_cons] at h
    push_neg at h
    rw [mintTxList, projWith_cons, ih _ h.2]
    rw [contrib_irrelevant ok _ a
      (by simp only [ne_eq, Option.some.injEq]; exact fun hc => h.1 hc.symm) (by simp)]
    ring

theorem projWith_mintTxList_mem (ok : Tx → Bool) (accts : List (Nat × Account))
    (n : Nat) (amt : Dy) (b : String) (adm : Nat) (a : Nat)
    (hok : ∀ t, t.kind = .dailyMint → t.status = .approved → ok t = true)
    (hnd : (accts.map Prod.fst).Nodup) (h : a ∈ accts.map Prod.fst) :
    projWith ok (mintTxList accts n amt b adm) a = toRat amt := by
  induction accts generalizing n with
  | nil => simp at h
  | cons p rest ih =>
    obtain ⟨k, acct⟩ := p
    simp only [List.map_cons, List.nodup_cons] at hnd
    simp only [List.map_cons, List.mem_cons] at h
    rw [mintTxList, projWith_cons]
    by_cases hk : a = k
    · subst hk
      rw [projWith_mintTxList_notMem ok rest _ _ _ _ _ hnd.1]
      rw [contrib_counted _ _ _ (hok _ rfl rfl)]
      simp
    · have h2 : a ∈ rest.map Prod.fst := by
        rcases h with h | h
        · exact absurd h hk
        · exact h
      rw [ih _ hnd.2 h2]
      rw [contrib_irrelevant ok _ a
        (by simp only [ne_eq, Option.some.injEq]; exact fun hc => hk hc.symm) (by simp)]
      ring

theorem mintTxList_fields (accts : List (Nat × Account)) (n : Nat) (amt : Dy)
    (b : String) (adm : Nat) :
    ∀ t ∈ mintTxList accts n amt b adm,
      t.kind = .dailyMint ∧ t.status = .approved ∧ t.fromUserId = none ∧
      t.amount = amt ∧ t.batchId = some b ∧
      ∃ k, k ∈ accts.map Prod.fst ∧ t.toUserId = some k := by
  induction accts generalizing n with
  | nil => intro t ht; simp [mintTxList] at ht
  | cons p rest ih =>
    intro t ht
    obtain ⟨k, acct⟩ := p
    rw [mintTxList] at ht
    rcases List.mem_cons.1 ht with h | h
    · subst h
      refine ⟨rfl, rfl, rfl, rfl, rfl, k, ?_, rfl⟩
      simp
    · obtain ⟨h1, h2, h3, h4, h5, k', hk', h6⟩ := ih (n + 1) t h
      exact ⟨h1, h2, h3, h4, h5, k', by simp [hk'], h6⟩

theorem mintTxList_length (accts : List (Nat × Account)) (n : Nat) (amt : Dy)
    (b : String) (adm : Nat) :
    (mintTxList accts n amt b adm).length = accts.length := by
  induction accts generalizing n with
  | nil => rfl
  | cons p rest ih =>
    obtain ⟨k, acct⟩ := p
    rw [mintTxList]
    simp [ih]

/-! ### Operation inversion lemmas -/

theorem approveRequest_ok {s s' : St} {u : Principal} {i : Nat}
    (h : approveRequest s u i = .ok s') :
    ∃ t f r sender receiver,
      getTx s.txs i = some t ∧ t.kind = .request ∧ t.status = .pending ∧
      t.fromUserId = some f ∧ t.toUserId = some r ∧
      getAcct s.accounts f = some sender ∧ getAcct s.accounts r = some receiver ∧
      ¬ (compareDecimal sender.balance t.amount).m < 0 ∧
      s' = { s with
        accounts := setAcct (setAcct s.accounts f
          { sender with balance := jsSub sender.balance t.amount }) r
          { receiver with balance := jsAdd receiver.balance t.amount }
        txs := setTx s.txs i fun tx =>
          { tx with status := .approved, adminId := some u.id } } := by
  unfold approveRequest at h
  split at h
  · simp at h
  next t heq =>
    split_ifs at h with hk hst
    rcases hfu : t.fromUserId with _ | f
    · rw [hfu] at h
      simp at h
    rcases htu : t.toUserId with _ | r
    · rw [hfu, htu] at h
      simp at h
    rw [hfu, htu] at h
    simp only [] at h
    rcases hga : getAcct s.accounts f with _ | sender
    · rw [hga] at h
      simp at h
    rcases hgb : getAcct s.accounts r with _ | receiver
    · rw [hga, hgb] at h
      simp at h
    rw [hga, hgb] at h
    simp only [] at h
    split_ifs at h with hbal
    rw [Except.ok.injEq] at h
    push_neg at hk hst
    exact ⟨t, f, r, sender, receiver, heq, hk, hst, hfu, htu, hga, hgb, hbal, h.symm⟩

theorem rejectRequest_ok {s s' : St} {u : Principal} {i : Nat} {reason : Option String}
    (h : rejectRequest s u i reason = .ok s') :
    ∃ t,
      getTx s.txs i = some t ∧ t.kind = .request ∧ t.status = .pending ∧
      s' = { s with
        txs := setTx s.txs i fun tx =>
          { tx with
            status := .failed
            adminId := some u.id
            reason := rejectReason tx.reason reason } } := by
  unfold rejectRequest at h
  split at h
  · simp at h
  next t heq =>
    split_ifs at h with hk hst
    rw [Except.ok.injEq] at h
    push_neg at hk hst
    exact ⟨t, heq, hk, hst, h.symm⟩

theorem createTx_ok {s s' : St} {mk : Nat → Tx} (h : createTx s mk = .ok s') :
    txAmountValid (mk s.nextId).amount = true ∧
    keyFresh s.txs (mk s.nextId).idempotencyKey = true ∧
    s' = { s with txs := s.txs ++ [mk s.nextId], nextId := s.nextId + 1 } := by
  simp only [createTx] at h
  split_ifs at h with h1 h2
  rw [Except.ok.injEq] at h
  push_neg at h1 h2
  exact ⟨by simpa using h1, by simpa using h2, h.symm⟩

theorem recoverChips_ok {s s' : St} {u : Principal} {x y : Nat}
    {reason key : Option String} (h : recoverChips s u x y reason key = .ok s') :
    ∃ bu vu,
      x ≠ y ∧ getAcct s.accounts x = some bu ∧ getAcct s.accounts y = some vu ∧
      bu.isBanned = true ∧ vu.isVerified = true ∧ 0 < bu.balance.m ∧
      txAmountValid bu.balance = true ∧ keyFresh s.txs key = true ∧
      s' = { accounts := setAcct (setAcct s.accounts x { bu with balance := ⟨0, 0⟩ }) y
               { vu with balance := jsAdd vu.balance bu.balance }
             txs := s.txs ++
               [{ id := s.nextId, fromUserId := some x, toUserId := some y
                  amount := bu.balance, kind := .chipRecovery, status := .approved
                  idempotencyKey := key, isReversal := false
                  reversedTransactionId := none
                  reason := some (reason.getD "Chip recovery from banned account")
                  adminId := some u.id, batchId := none
                  recoveryFromUserId := some x
                  recoveryReason := some (reason.getD
                    ("Recovered chips from banned account: " ++ bu.email)) }]
             nextId := s.nextId + 1 } := by
  unfold recoverChips at h
  split_ifs at h with hxy
  rcases hga : getAcct s.accounts x with _ | bu
  · rw [hga] at h
    rcases hgb : getAcct s.accounts y with _ | vu <;> rw [hgb] at h <;> simp at h
  rcases hgb : getAcct s.accounts y with _ | vu
  · rw [hga, hgb] at h
    simp at h
  rw [hga, hgb] at h
  simp only [] at h
  split_ifs at h with hban hver hbal
  obtain ⟨hval, hfresh, hs⟩ := createTx_ok h
  push_neg at hban hver hbal
  refine ⟨bu, vu, hxy, rfl, rfl, by simpa using hban, by simpa using hver, by omega,
    by simpa using hval, by simpa using hfresh, ?_⟩
  rw [hs]

theorem reverseTransaction_ok {s s' : St} {u : Principal} {i : Nat}
    {reason : Option String} (h : reverseTransaction s u i reason = .ok s') :
    ∃ t f r sender receiver,
      getTx s.txs i = some t ∧ t.kind ≠ .reversal ∧ t.status = .approved ∧
      t.fromUserId = some f ∧ t.toUserId = some r ∧
      getAcct s.accounts r = some sender ∧ getAcct s.accounts f = some receiver ∧
      ¬ (compareDecimal sender.balance t.amount).m < 0 ∧
      txAmountValid t.amount = true ∧
      s' = { accounts := setAcct (setAcct s.accounts r
               { sender with balance := jsSub sender.balance t.amount }) f
               { receiver with balance := jsAdd receiver.balance t.amount }
             txs := (setTx s.txs i fun tx => { tx with status := .reversed }) ++
               [{ id := s.nextId, fromUserId := some r, toUserId := some f
                  amount := t.amount, kind := .reversal, status := .approved
                  idempotencyKey := none, isReversal := true
                  reversedTransactionId := some t.id, reason := reason
                  adminId := some u.id, batchId := none
                  recoveryFromUserId := none, recoveryReason := none }]
             nextId := s.nextId + 1 } := by
  unfold reverseTransaction at h
  split at h
  · simp at h
  next t heq =>
    split_ifs at h with hrev hkind happ
    rcases hfu : t.fromUserId with _ | f
    · rw [hfu] at h
      simp at h
    rcases htu : t.toUserId with _ | r
    · rw [hfu, htu] at h
      simp at h
    rw [hfu, htu] at h
    simp only [] at h
    rcases hga : getAcct s.accounts r with _ | sender
    · rw [hga] at h
      simp at h
    rcases hgb : getAcct s.accounts f with _ | receiver
    · rw [hga, hgb] at h
      simp at h
    rw [hga, hgb] at h
    simp only [] at h
    split_ifs at h with hbal
    obtain ⟨hval, hfresh, hs⟩ := createTx_ok h
    push_neg at happ
    refine ⟨t, f, r, sender, receiver, heq, hkind, happ, hfu, htu, hga, hgb, hbal,
      by simpa using hval, ?_⟩
    rw [hs]

theorem dailyMint_ok {s s' : St} {u : Principal} {amountPerUser : Option Dy}
    {batchId : String} (h : dailyMint s u amountPerUser batchId = .ok s') :
    0 < (mintAmountOf amountPerUser).m ∧ s.accounts.isEmpty = false ∧
    txAmountValid (mintAmountOf amountPerUser) = true ∧
    s' = { accounts := s.accounts.map fun p =>
             (p.1, { p.2 with balance := jsAdd p.2.balance (mintAmountOf amountPerUser) })
           txs := s.txs ++ mintTxList s.accounts s.nextId (mintAmountOf amountPerUser)
             batchId u.id
           nextId := s.nextId + s.accounts.length } := by
  simp only [dailyMint] at h
  split_ifs at h with h1 h2 h3
  rw [Except.ok.injEq] at h
  push_neg at h1 h2 h3
  refine ⟨by omega, by simpa using h2, by simpa using h3, h.symm⟩

theorem transfer_ok {s s' : St} {u : Principal} {ty : TransferType}
    {body : TransferBody} {key : Option String}
    (h : transfer s u ty body key = .ok s') :
    (ty = .request ∧ u.role = .player ∧ u.id ≠ body.toUserId ∧
      (∃ receiver, getAcct s.accounts body.toUserId = some receiver) ∧
      0 < (fl body.amount).m ∧ txAmountValid (fl body.amount) = true ∧
      keyFresh s.txs key = true ∧
      s' = { s with
        txs := s.txs ++
          [{ id := s.nextId, fromUserId := some u.id, toUserId := some body.toUserId
             amount := fl body.amount, kind := .request, status := .pending
             idempotencyKey := key, isReversal := false, reversedTransactionId := none
             reason := body.reason, adminId := none, batchId := none
             recoveryFromUserId := none, recoveryReason := none }]
        nextId := s.nextId + 1 }) ∨
    (ty = .manual ∧ u.role = .admin ∧
      ∃ senderId sender receiver, body.fromUserId = some senderId ∧
        getAcct s.accounts body.toUserId = some receiver ∧
        getAcct s.accounts senderId = some sender ∧ senderId ≠ body.toUserId ∧
        0 < (fl body.amount).m ∧
        ¬ (compareDecimal sender.balance (fl body.amount)).m < 0 ∧
        txAmountValid (fl body.amount) = true ∧ keyFresh s.txs key = true ∧
        s' = { accounts := setAcct (setAcct s.accounts senderId
                 { sender with balance := jsSub sender.balance (fl body.amount) })
                 body.toUserId
                 { receiver with balance := jsAdd receiver.balance (fl body.amount) }
               txs := s.txs ++
                 [{ id := s.nextId, fromUserId := some senderId
                    toUserId := some body.toUserId
                    amount := fl body.amount, kind := .manual, status := .approved
                    idempotencyKey := key, isReversal := false
                    reversedTransactionId := none, reason := body.reason
                    adminId := some u.id, batchId := none
                    recoveryFromUserId := none, recoveryReason := none }]
               nextId := s.nextId + 1 }) ∨
    (ty = .manual ∧ u.role = .admin ∧ body.fromUserId = none ∧
      ∃ receiver, getAcct s.accounts body.toUserId = some receiver ∧
        0 < (fl body.amount).m ∧ txAmountValid (fl body.amount) = true ∧
        keyFresh s.txs key = true ∧
        s' = { accounts := setAcct s.accounts body.toUserId
                 { receiver with balance := jsAdd receiver.balance (fl body.amount) }
               txs := s.txs ++
                 [{ id := s.nextId, fromUserId := none, toUserId := some body.toUserId
                    amount := fl body.amount, kind := .manual, status := .approved
                    idempotencyKey := key, isReversal := false
                    reversedTransactionId := none, reason := body.reason
                    adminId := some u.id, batchId := none
                    recoveryFromUserId := none, recoveryReason := none }]
               nextId := s.nextId + 1 }) := by
  unfold transfer at h
  by_cases hg1 : u.role = .player ∧ ty ≠ .request
  · rw [if_pos hg1] at h
    simp at h
  rw [if_neg hg1] at h
  by_cases hg2 : u.role = .admin ∧ ty ≠ .manual
  · rw [if_pos hg2] at h
    simp at h
  rw [if_neg hg2] at h
  by_cases hreq : ty = .request ∧ u.role = .player
  · rw [if_pos hreq] at h
    rcases hga : getAcct s.accounts body.toUserId with _ | receiver
    · rw [hga] at h
      simp at h
    rw [hga] at h
    simp only [] at h
    by_cases hself : u.id = body.toUserId
    · rw [if_pos hself] at h
      simp at h
    rw [if_neg hself] at h
    by_cases hamt : (fl body.amount).m ≤ 0
    · rw [if_pos hamt] at h
      simp at h
    rw [if_neg hamt] at h
    obtain ⟨hval, hfresh, hs⟩ := createTx_ok h
    refine Or.inl ⟨hreq.1, hreq.2, hself, ⟨receiver, rfl⟩, by omega,
      by simpa using hval, by simpa using hfresh, ?_⟩
    rw [hs]
  · rw [if_neg hreq] at h
    by_cases hman : ty = .manual ∧ u.role = .admin
    · rw [if_pos hman] at h
      rcases hga : getAcct s.accounts body.toUserId with _ | receiver
      · rw [hga] at h
        simp at h
      rw [hga] at h
      simp only [] at h
      rcases hfu : body.fromUserId with _ | senderId
      · rw [hfu] at h
        simp only [] at h
        by_cases hamt : (fl body.amount).m ≤ 0
        · rw [if_pos hamt] at h
          simp at h
        rw [if_neg hamt] at h
        obtain ⟨hval, hfresh, hs⟩ := createTx_ok h
        refine Or.inr (Or.inr ⟨hman.1, hman.2, rfl, receiver, rfl, by omega,
          by simpa using hval, by simpa using hfresh, ?_⟩)
        rw [hs]
      · rw [hfu] at h
        simp only [] at h
        rcases hgs : getAcct s.accounts senderId with _ | sender
        · rw [hgs] at h
          simp at h
        rw [hgs] at h
        simp only [] at h
        by_cases hself : senderId = body.toUserId
        · rw [if_pos hself] at h
          simp at h
        rw [if_neg hself] at h
        by_cases hamt : (fl body.amount).m ≤ 0
        · rw [if_pos hamt] at h
          simp at h
        rw [if_neg hamt] at h
        by_cases hbal : (compareDecimal sender.balance (fl body.amount)).m < 0
        · rw [if_pos hbal] at h
          simp at h
        rw [if_neg hbal] at h
        obtain ⟨hval, hfresh, hs⟩ := createTx_ok h
        refine Or.inr (Or.inl ⟨hman.1, hman.2, senderId, sender, receiver, rfl, rfl, hgs,
          hself, by omega, hbal, by simpa using hval, by simpa using hfresh, ?_⟩)
        rw [hs]
    · rw [if_neg hman] at h
      simp at h

/-! ### Float64 exactness in the whole-number regime -/

theorem WholeLe_fl {d : Dy} (h : WholeLe d (2 ^ 52)) :
    toRat (fl d) = toRat d ∧ WholeLe (fl d) (2 ^ 52) := by
  obtain ⟨n, hn, hb⟩ := h
  have he : toRat (fl d) = toRat d := toRat_fl_int d n hn (by omega)
  exact ⟨he, n, he.trans hn, hb⟩

theorem jsAdd_whole {x y : Dy} (hx : WholeLe x (2 ^ 52)) (hy : WholeLe y (2 ^ 52)) :
    toRat (jsAdd x y) = toRat x + toRat y := by
  obtain ⟨nx, hnx, hbx⟩ := hx
  obtain ⟨ny, hny, hby⟩ := hy
  exact jsAdd_exact x y nx ny hnx hny (by omega)

theorem jsSub_whole {x y : Dy} (hx : WholeLe x (2 ^ 52)) (hy : WholeLe y (2 ^ 52)) :
    toRat (jsSub x y) = toRat x - toRat y := by
  obtain ⟨nx, hnx, hbx⟩ := hx
  obtain ⟨ny, hny, hby⟩ := hy
  exact jsSub_exact x y nx ny hnx hny (by omega)

theorem WholeLe_mintAmountOf {a : Option Dy} (h : WholeAmtOpt a) :
    WholeLe (mintAmountOf a) (2 ^ 52) := by
  cases a with
  | none => exact ⟨10000, by simp [mintAmountOf, toRat], by norm_num⟩
  | some v => exact (WholeLe_fl h).2

/-! ### Invariant preservation -/

theorem genesis_good (accts : List (Nat × Account)) (nextId : Nat)
    (hzero : ∀ p ∈ accts, p.2.balance = ⟨0, 0⟩)
    (hnodup : (accts.map Prod.fst).Nodup) :
    GoodSt ⟨accts, [], nextId⟩ := by
  refine ⟨?_, ?_, hnodup⟩
  · intro a acct hga
    have hmem := getAcct_mem _ _ _ hga
    have hz := hzero _ hmem
    rw [hz]
    simp only [projWith_nil]
    simp [toRat]
  · intro t ht
    simp at ht

theorem txParties_setTx (txs : List Tx) (i : Nat) (f : Tx → Tx)
    (hp : ∀ t ∈ txs, t.fromUserId = none ∨
      ∃ a b, t.fromUserId = some a ∧ t.toUserId = some b ∧ a ≠ b)
    (hf : ∀ t, (f t).fromUserId = t.fromUserId ∧ (f t).toUserId = t.toUserId) :
    ∀ t' ∈ setTx txs i f, t'.fromUserId = none ∨
      ∃ a b, t'.fromUserId = some a ∧ t'.toUserId = some b ∧ a ≠ b := by
  intro t' ht'
  rcases setTx_mem _ _ _ _ ht' with hmem | ⟨t, ht, rfl⟩
  · exact hp _ hmem
  · rcases hp _ ht with h1 | ⟨a, b, h1, h2, h3⟩
    · exact Or.inl ((hf t).1.trans h1)
    · exact Or.inr ⟨a, b, (hf t).1.trans h1, (hf t).2.trans h2, h3⟩

theorem rejectStep_good {s s' : St} {u : Principal} {i : Nat} {r : Option String}
    (h : rejectRequest s u i r = .ok s') (hg : GoodSt s) : GoodSt s' := by
  obtain ⟨t, hget, hkind, hst, rfl⟩ := rejectRequest_ok h
  obtain ⟨hinv, hparties, hnd⟩ := hg
  refine ⟨?_, ?_, hnd⟩
  · intro a acct hga
    simp only [] at hga ⊢
    rw [projWith_setTx effectiveB s.txs i _ a t hget,
      contrib_not_counted _ _ _ (by simp [effectiveB]),
      contrib_not_counted _ _ _ (by simp [effectiveB, hst])]
    have := hinv a acct hga
    simpa using this
  · intro t' ht'
    simp only [] at ht'
    exact txParties_setTx s.txs i
      (fun tx => { tx with status := .failed, adminId := some u.id, reason := rejectReason tx.reason r })
      hparties (fun t'' => ⟨rfl, rfl⟩) t' ht'

theorem recoverStep_good {s s' : St} {u : Principal} {x y : Nat}
    {reason key : Option String} (h : recoverChips s u x y reason key = .ok s')
    (hg : GoodSt s) (hsafe : SafeSt s) : GoodSt s' := by
  obtain ⟨bu, vu, hxy, hgx, hgy, hban, hver, hbal, hval, hfresh, rfl⟩ := recoverChips_ok h
  obtain ⟨hinv, hparties, hnd⟩ := hg
  have hbw : WholeLe bu.balance (2 ^ 52) := hsafe.1 _ _ hgx
  have hvw : WholeLe vu.balance (2 ^ 52) := hsafe.1 _ _ hgy
  refine ⟨?_, ?_, ?_⟩
  · intro a acct hga
    simp only [] at hga ⊢
    rw [projWith_append, projWith_cons, projWith_nil]
    have hok : effectiveB
        { id := s.nextId, fromUserId := some x, toUserId := some y
          amount := bu.balance, kind := .chipRecovery, status := .approved
          idempotencyKey := key, isReversal := false
          reversedTransactionId := none
          reason := some (reason.getD "Chip recovery from banned account")
          adminId := some u.id, batchId := none
          recoveryFromUserId := some x
          recoveryReason := some (reason.getD
            ("Recovered chips from banned account: " ++ bu.email)) } = true := by
      simp [effectiveB]
    by_cases hay : a = y
    · subst hay
      rw [getAcct_setAcct_self _ _ _ vu (by rw [getAcct_setAcct_ne _ _ _ _ hxy]; exact hgy)]
        at hga
      cases hga
      rw [contrib_counted _ _ _ hok]
      simp only []
      rw [if_pos (by simp), if_neg (by simp [beq_iff_eq]; exact hxy)]
      rw [jsAdd_whole hvw hbw, hinv a vu hgy]
      ring
    · by_cases hax : a = x
      · subst hax
        rw [getAcct_setAcct_ne _ _ _ _ (fun hc => hay hc.symm)] at hga
        rw [getAcct_setAcct_self _ _ _ bu hgx] at hga
        cases hga
        rw [contrib_counted _ _ _ hok]
        simp only []
        rw [if_neg (by simp [beq_iff_eq]; exact fun hc => hay hc.symm),
          if_pos (by simp)]
        rw [hinv a bu hgx]
        simp [toRat]
      · rw [getAcct_setAcct_ne _ _ _ _ (fun hc => hay hc.symm),
          getAcct_setAcct_ne _ _ _ _ (fun hc => hax hc.symm)] at hga
        rw [contrib_irrelevant _ _ _
          (by simp only [ne_eq, Option.some.injEq]; exact fun hc => hay hc.symm)
          (by simp only [ne_eq, Option.some.injEq]; exact fun hc => hax hc.symm)]
        rw [hinv a acct hga]
        ring
  · intro t' ht'
    simp only [] at ht'
    rcases List.mem_append.1 ht' with hmem | hmem
    · exact hparties _ hmem
    · rcases List.mem_singleton.1 hmem with rfl
      exact Or.inr ⟨x, y, rfl, rfl, hxy⟩
  · unfold NodupKeys
    simp only [setAcct_keys]
    exact hnd

theorem party_ne {s : St} {t : Tx} {f r : Nat} (hparties : TxParties s)
    (hmem : t ∈ s.txs) (hfu : t.fromUserId = some f) (htu : t.toUserId = some r) :
    f ≠ r := by
  rcases hparties t hmem with h1 | ⟨a', b', h1, h2, h3⟩
  · rw [hfu] at h1
    exact absurd h1 (by simp)
  · rw [hfu] at h1
    rw [htu] at h2
    cases h1
    cases h2
    exact h3

theorem approveStep_good {s s' : St} {u : Principal} {i : Nat}
    (h : approveRequest s u i = .ok s') (hg : GoodSt s) (hsafe : SafeSt s) :
    GoodSt s' := by
  obtain ⟨t, f, r, sender, receiver, hget, hkind, hst, hfu, htu, hgf, hgr, hbal, rfl⟩ :=
    approveRequest_ok h
  obtain ⟨hinv, hparties, hnd⟩ := hg
  have hfr : f ≠ r := party_ne hparties (getTx_mem _ _ _ hget) hfu htu
  have hsw : WholeLe sender.balance (2 ^ 52) := hsafe.1 _ _ hgf
  have hrw : WholeLe receiver.balance (2 ^ 52) := hsafe.1 _ _ hgr
  have haw : WholeLe t.amount (2 ^ 52) := hsafe.2 _ (getTx_mem _ _ _ hget)
  refine ⟨?_, ?_, ?_⟩
  · intro a acct hga
    simp only [] at hga ⊢
    rw [projWith_setTx effectiveB s.txs i _ a t hget]
    rw [contrib_counted _ _ _ (by simp [effectiveB]),
      contrib_not_counted _ _ _ (by simp [effectiveB, hst])]
    simp only [htu, hfu]
    by_cases haf : a = f
    · subst haf
      rw [getAcct_setAcct_ne _ _ _ _ (fun hc => hfr hc.symm)] at hga
      rw [getAcct_setAcct_self _ _ _ sender hgf] at hga
      cases hga
      rw [if_neg (by simp [beq_iff_eq]; exact fun hc => hfr hc.symm),
        if_pos (by simp)]
      rw [jsSub_whole hsw haw, hinv a sender hgf]
      ring
    · by_cases har : a = r
      · subst har
        rw [getAcct_setAcct_self _ _ _ receiver
          (by rw [getAcct_setAcct_ne _ _ _ _ hfr]; exact hgr)] at hga
        cases hga
        rw [if_pos (by simp), if_neg (by simp [beq_iff_eq]; exact hfr)]
        rw [jsAdd_whole hrw haw, hinv a receiver hgr]
        ring
      · rw [getAcct_setAcct_ne _ _ _ _ (fun hc => har hc.symm),
          getAcct_setAcct_ne _ _ _ _ (fun hc => haf hc.symm)] at hga
        rw [if_neg (by simp [beq_iff_eq]; exact fun hc => har hc.symm),
          if_neg (by simp [beq_iff_eq]; exact fun hc => haf hc.symm)]
        rw [hinv a acct hga]
        ring
  · intro t' ht'
    simp only [] at ht'
    exact txParties_setTx s.txs i
      (fun tx => { tx with status := .approved, adminId := some u.id })
      hparties (fun t'' => ⟨rfl, rfl⟩) t' ht'
  · unfold NodupKeys
    simp only [setAcct_keys]
    exact hnd

theorem reverseStep_good {s s' : St} {u : Principal} {i : Nat} {r0 : Option String}
    (h : reverseTransaction s u i r0 = .ok s') (hg : GoodSt s) (hsafe : SafeSt s) :
    GoodSt s' := by
  obtain ⟨t, f, r, sender, receiver, hget, hkind, hst, hfu, htu, hgr, hgf, hbal, hval, rfl⟩ :=
    reverseTransaction_ok h
  obtain ⟨hinv, hparties, hnd⟩ := hg
  have hfr : f ≠ r := party_ne hparties (getTx_mem _ _ _ hget) hfu htu
  have hsw : WholeLe sender.balance (2 ^ 52) := hsafe.1 _ _ hgr
  have hrw : WholeLe receiver.balance (2 ^ 52) := hsafe.1 _ _ hgf
  have haw : WholeLe t.amount (2 ^ 52) := hsafe.2 _ (getTx_mem _ _ _ hget)
  have hok : effectiveB
      { id := s.nextId, fromUserId := some r, toUserId := some f
        amount := t.amount, kind := .reversal, status := .approved
        idempotencyKey := none, isReversal := true
        reversedTransactionId := some t.id, reason := r0
        adminId := some u.id, batchId := none
        recoveryFromUserId := none, recoveryReason := none } = true := by
    simp [effectiveB]
  refine ⟨?_, ?_, ?_⟩
  · intro a acct hga
    simp only [] at hga ⊢
    rw [projWith_append, projWith_cons, projWith_nil,
      projWith_setTx effectiveB s.txs i _ a t hget]
    rw [contrib_counted _ _ _ (by simp [effectiveB]),
      contrib_counted _ _ _ (by simp [effectiveB, hst]),
      contrib_counted _ _ _ hok]
    simp only [htu, hfu]
    by_cases har : a = r
    · subst har
      rw [getAcct_setAcct_ne _ _ _ _ hfr] at hga
      rw [getAcct_setAcct_self _ _ _ sender hgr] at hga
      cases hga
      simp only []
      rw [jsSub_whole hsw haw, hinv a sender hgr]
      rw [if_pos (by simp), if_neg (by simp [beq_iff_eq]; exact hfr)]
      ring
    · by_cases haf : a = f
      · subst haf
        rw [getAcct_setAcct_self _ _ _ receiver
          (by rw [getAcct_setAcct_ne _ _ _ _ (fun hc => hfr hc.symm)]; exact hgf)] at hga
        cases hga
        simp only []
        rw [jsAdd_whole hrw haw, hinv a receiver hgf]
        rw [if_neg (by simp [beq_iff_eq]; exact fun hc => har hc.symm), if_pos (by simp)]
        ring
      · rw [getAcct_setAcct_ne _ _ _ _ (fun hc => haf hc.symm),
          getAcct_setAcct_ne _ _ _ _ (fun hc => har hc.symm)] at hga
        rw [hinv a acct hga]
        rw [if_neg (by simp [beq_iff_eq]; exact fun hc => har hc.symm),
          if_neg (by simp [beq_iff_eq]; exact fun hc => haf hc.symm)]
        ring
  · intro t' ht'
    simp only [] at ht'
    rcases List.mem_append.1 ht' with hmem | hmem
    · exact txParties_setTx s.txs i
        (fun tx => { tx with status := .reversed })
        hparties (fun t'' => ⟨rfl, rfl⟩) t' hmem
    · rcases List.mem_singleton.1 hmem with rfl
      exact Or.inr ⟨r, f, rfl, rfl, fun hc => hfr hc.symm⟩
  · unfold NodupKeys
    simp only [setAcct_keys]
    exact hnd

theorem transferStep_good {s s' : St} {u : Principal} {ty : TransferType}
    {body : TransferBody} {key : Option String}
    (h : transfer s u ty body key = .ok s') (hg : GoodSt s) (hsafe : SafeSt s)
    (hamt : WholeLe body.amount (2 ^ 52)) : GoodSt s' := by
  obtain ⟨hinv, hparties, hnd⟩ := hg
  have hflw := WholeLe_fl hamt
  rcases transfer_ok h with
    ⟨hty, hrole, hself, ⟨receiver, hgr⟩, hpos, hval, hfresh, rfl⟩ |
    ⟨hty, hrole, senderId, sender, receiver, hfu, hgr, hgs, hself, hpos, hbal, hval,
      hfresh, rfl⟩ |
    ⟨hty, hrole, hfu, receiver, hgr, hpos, hval, hfresh, rfl⟩
  · refine ⟨?_, ?_, hnd⟩
    · intro a acct hga
      simp only [] at hga ⊢
      rw [projWith_append, projWith_cons, projWith_nil,
        contrib_not_counted _ _ _ (by simp [effectiveB])]
      rw [hinv a acct hga]
      ring
    · intro t' ht'
      simp only [] at ht'
      rcases List.mem_append.1 ht' with hmem | hmem
      · exact hparties _ hmem
      · rcases List.mem_singleton.1 hmem with rfl
        exact Or.inr ⟨u.id, body.toUserId, rfl, rfl, hself⟩
  · have hsw := hsafe.1 _ _ hgs
    have hrw := hsafe.1 _ _ hgr
    refine ⟨?_, ?_, ?_⟩
    · intro a acct hga
      simp only [] at hga ⊢
      rw [projWith_append, projWith_cons, projWith_nil,
        contrib_counted _ _ _ (by simp [effectiveB])]
      by_cases hat : a = body.toUserId
      · subst hat
        rw [getAcct_setAcct_self _ _ _ receiver
          (by rw [getAcct_setAcct_ne _ _ _ _ hself]; exact hgr)] at hga
        cases hga
        simp only []
        rw [jsAdd_whole hrw hflw.2, hinv _ receiver hgr]
        rw [if_pos (by simp), if_neg (by simp [beq_iff_eq]; exact hself)]
        ring
      · by_cases has : a = senderId
        · subst has
          rw [getAcct_setAcct_ne _ _ _ _ (fun hc => hat hc.symm)] at hga
          rw [getAcct_setAcct_self _ _ _ sender hgs] at hga
          cases hga
          simp only []
          rw [jsSub_whole hsw hflw.2, hinv _ sender hgs]
          rw [if_neg (by simp [beq_iff_eq]; exact fun hc => hat hc.symm),
            if_pos (by simp)]
          ring
        · rw [getAcct_setAcct_ne _ _ _ _ (fun hc => hat hc.symm),
            getAcct_setAcct_ne _ _ _ _ (fun hc => has hc.symm)] at hga
          rw [hinv a acct hga]
          rw [if_neg (by simp [beq_iff_eq]; exact fun hc => hat hc.symm),
            if_neg (by simp [beq_iff_eq]; exact fun hc => has hc.symm)]
          ring
    · intro t' ht'
      simp only [] at ht'
      rcases List.mem_append.1 ht' with hmem | hmem
      · exact hparties _ hmem
      · rcases List.mem_singleton.1 hmem with rfl
        exact Or.inr ⟨senderId, body.toUserId, rfl, rfl, hself⟩
    · unfold NodupKeys
      simp only [setAcct_keys]
      exact hnd
  · have hrw := hsafe.1 _ _ hgr
    refine ⟨?_, ?_, ?_⟩
    · intro a acct hga
      simp only [] at hga ⊢
      rw [projWith_append, projWith_cons, projWith_nil,
        contrib_counted _ _ _ (by simp [effectiveB])]
      by_cases hat : a = body.toUserId
      · subst hat
        rw [getAcct_setAcct_self _ _ _ receiver hgr] at hga
        cases hga
        simp only []
        rw [jsAdd_whole hrw hflw.2, hinv _ receiver hgr]
        rw [if_pos (by simp), if_neg (by simp)]
        ring
      · rw [getAcct_setAcct_ne _ _ _ _ (fun hc => hat hc.symm)] at hga
        rw [hinv a acct hga]
        rw [if_neg (by simp [beq_iff_eq]; exact fun hc => hat hc.symm),
          if_neg (by simp)]
        ring
    · intro t' ht'
      simp only [] at ht'
      rcases List.mem_append.1 ht' with hmem | hmem
      · exact hparties _ hmem
      · rcases List.mem_singleton.1 hmem with rfl
        exact Or.inl rfl
    · unfold NodupKeys
      simp only [setAcct_keys]
      exact hnd

theorem mintStep_good {s s' : St} {u : Principal} {ap : Option Dy} {b : String}
    (h : dailyMint s u ap b = .ok s') (hg : GoodSt s) (hsafe : SafeSt s)
    (hamt : WholeAmtOpt ap) : GoodSt s' := by
  obtain ⟨hpos, hne, hval, rfl⟩ := dailyMint_ok h
  obtain ⟨hinv, hparties, hnd⟩ := hg
  have hmw := WholeLe_mintAmountOf hamt
  refine ⟨?_, ?_, ?_⟩
  · intro a acct hga
    simp only [] at hga ⊢
    rw [getAcct_map2 s.accounts
      (fun p => { p.2 with balance := jsAdd p.2.balance (mintAmountOf ap) }) a] at hga
    rcases hgo : getAcct s.accounts a with _ | acct0
    · rw [hgo] at hga
      simp at hga
    rw [hgo] at hga
    simp only [Option.map_some'] at hga
    cases hga
    rw [projWith_append]
    have hmem : a ∈ s.accounts.map Prod.fst :=
      List.mem_map.2 ⟨(a, acct0), getAcct_mem _ _ _ hgo, rfl⟩
    rw [projWith_mintTxList_mem effectiveB _ _ _ _ _ a
      (fun t h1 h2 => by simp [effectiveB, h2]) hnd hmem]
    simp only []
    rw [jsAdd_whole (hsafe.1 _ _ hgo) hmw, hinv a acct0 hgo]
  · intro t' ht'
    simp only [] at ht'
    rcases List.mem_append.1 ht' with hmem | hmem
    · exact hparties _ hmem
    · obtain ⟨h1, h2, h3, h4, h5, k, hk, h6⟩ := mintTxList_fields _ _ _ _ _ t' hmem
      exact Or.inl h3
  · unfold NodupKeys
    simp only []
    have : (List.map Prod.fst (s.accounts.map fun p =>
        (p.1, { p.2 with balance := jsAdd p.2.balance (mintAmountOf ap) }))) =
        s.accounts.map Prod.fst := by
      rw [List.map_map]
      rfl
    rw [this]
    exact hnd

theorem safeReach_good {s : St} (h : SafeReach s) : GoodSt s := by
  induction h with
  | genesis accts nextId hzero hnodup => exact genesis_good accts nextId hzero hnodup
  | stepTransfer u ty body key hr hsafe hamt hok ih =>
    exact transferStep_good hok ih hsafe hamt
  | stepApprove u i hr hsafe hok ih => exact approveStep_good hok ih hsafe
  | stepReject u i r hr hsafe hok ih => exact rejectStep_good hok ih
  | stepReverse u i r hr hsafe hok ih => exact reverseStep_good hok ih hsafe
  | stepMint u a b hr hsafe hamt hok ih => exact mintStep_good hok ih hsafe hamt
  | stepRecover u x y r k hr hsafe hok ih => exact recoverStep_good hok ih hsafe

/-! ### Forward-evaluation helpers -/

theorem keyFresh_none (txs : List Tx) : keyFresh txs none = true := rfl

theorem getTx_append_left (xs ys : List Tx) (i : Nat) (t : Tx)
    (h : getTx xs i = some t) : getTx (xs ++ ys) i = some t := by
  induction xs with
  | nil => simp [getTx] at h
  | cons t1 rest ih =>
    by_cases hk : t1.id = i
    · simp only [getTx, if_pos hk] at h
      simp only [List.cons_append, getTx, if_pos hk]
      exact h
    · simp only [getTx, if_neg hk] at h
      simp only [List.cons_append, getTx, if_neg hk]
      exact ih h

theorem getTx_append_fresh (txs : List Tx) (t0 : Tx)
    (h : ∀ t ∈ txs, t.id ≠ t0.id) : getTx (txs ++ [t0]) t0.id = some t0 := by
  induction txs with
  | nil => simp [getTx]
  | cons t1 rest ih =>
    have hne : t1.id ≠ t0.id := h t1 (List.mem_cons_self _ _)
    simp only [List.cons_append, getTx, if_neg hne]
    exact ih fun t ht => h t (List.mem_cons_of_mem _ ht)

theorem getTx_setTx_self (txs : List Tx) (i : Nat) (f : Tx → Tx) (t : Tx)
    (h : getTx txs i = some t) (hf : ∀ tx, (f tx).id = tx.id) :
    getTx (setTx txs i f) i = some (f t) := by
  induction txs with
  | nil => simp [getTx] at h
  | cons t1 rest ih =>
    by_cases hk : t1.id = i
    · simp only [getTx, if_pos hk] at h
      cases h
      simp only [setTx, if_pos hk, getTx]
      rw [if_pos (by rw [hf]; exact hk)]
    · simp only [getTx, if_neg hk] at h
      simp only [setTx, if_neg hk, getTx, if_neg hk]
      exact ih h

theorem setTx_id_mem (txs : List Tx) (i : Nat) (f : Tx → Tx)
    (hf : ∀ tx, (f tx).id = tx.id) (t' : Tx) (h : t' ∈ setTx txs i f) :
    ∃ t, t ∈ txs ∧ t'.id = t.id := by
  rcases setTx_mem _ _ _ _ h with hmem | ⟨t, ht, rfl⟩
  · exact ⟨t', hmem, rfl⟩
  · exact ⟨t, ht, hf t⟩

theorem txAmountValid_iff (d : Dy) :
    txAmountValid d = true ↔ 0 < toRat d ∧ toRat d ≤ 20000000000000 := by
  rw [txAmountValid, Bool.and_eq_true, decide_eq_true_eq, dleB_iff, ← toRat_pos_iff]
  have : toRat ⟨20000000000000, 0⟩ = (20000000000000 : ℚ) := by
    rw [toRat_int]
    norm_num
  rw [this]

theorem wholeLe_ofInt (n : Int) (B : Nat) (h : n.natAbs ≤ B) : WholeLe ⟨n, 0⟩ B :=
  ⟨n, toRat_int n, h⟩

theorem safeSt_dec (s : St)
    (h1 : (s.accounts.all fun p =>
      decide (p.2.balance.e = 0 ∧ p.2.balance.m.natAbs ≤ 2 ^ 52)) = true)
    (h2 : (s.txs.all fun t =>
      decide (t.amount.e = 0 ∧ t.amount.m.natAbs ≤ 2 ^ 52)) = true) :
    SafeSt s := by
  rw [List.all_eq_true] at h1 h2
  refine ⟨fun a acct hga => ?_, fun t ht => ?_⟩
  · have hx := h1 _ (getAcct_mem _ _ _ hga)
    rw [decide_eq_true_eq] at hx
    exact ⟨acct.balance.m, by rw [toRat, hx.1]; simp, hx.2⟩
  · have hx := h2 _ ht
    rw [decide_eq_true_eq] at hx
    exact ⟨t.amount.m, by rw [toRat, hx.1]; simp, hx.2⟩

/-! ### Dyadic value comparison helpers -/

theorem toRat_eq_zero_m (d : Dy) (h : toRat d = 0) : d.m = 0 := by
  rcases lt_trichotomy d.m 0 with h1 | h1 | h1
  · exact absurd h (ne_of_lt ((toRat_neg_iff d).2 h1))
  · exact h1
  · exact absurd h (ne_of_gt ((toRat_pos_iff d).2 h1))

theorem toRat_ne (x y : Dy) (h : (dsub x y).m ≠ 0) : toRat x ≠ toRat y := by
  intro hc
  apply h
  apply toRat_eq_zero_m
  rw [toRat_dsub, hc, sub_self]

theorem toRat_lt (x y : Dy) (h : 0 < (dsub y x).m) : toRat x < toRat y := by
  have h2 := (toRat_pos_iff (dsub y x)).2 h
  rw [toRat_dsub] at h2
  linarith

theorem toRat_le (x y : Dy) (h : (dsub x y).m ≤ 0) : toRat x ≤ toRat y := by
  have h2 := (toRat_nonpos_iff (dsub x y)).2 h
  rw [toRat_dsub] at h2
  linarith

/-! ### Claim C3 -/

/-- C3: every update and delete entry point of the Transaction store
(updateOne, findOneAndUpdate, updateMany, findByIdAndUpdate, deleteOne,
findOneAndDelete, deleteMany, findByIdAndDelete) fails unconditionally
with the Immutable error and leaves the store unchanged.  These query
entry points are, however, the only guarded ones: the document-save path
still mutates committed entries, so the claim's "any entry point" clause
is corrected (see the counterexample). -/
theorem C3_queryWrite_immutable (s : St) (flt : Tx → Bool) (upd : Tx → Tx) (i : Nat) :
    txUpdateOne s flt upd = .error .immutable ∧
    txFindOneAndUpdate s flt upd = .error .immutable ∧
    txUpdateMany s flt upd = .error .immutable ∧
    txFindByIdAndUpdate s i upd = .error .immutable ∧
    txDeleteOne s flt = .error .immutable ∧
    txFindOneAndDelete s flt = .error .immutable ∧
    txDeleteMany s flt = .error .immutable ∧
    txFindByIdAndDelete s i = .error .immutable :=
  ⟨rfl, rfl, rfl, rfl, rfl, rfl, rfl, rfl⟩

/-- C3 counterexample: the immutability pre-hooks do not cover the
document-save path, so rejectRequest mutates a committed entry in place:
entry 300 of scenario p0 changes status from pending to failed. -/
theorem C3_counterexample :
    (getTx p0.txs 300).map Tx.status = some .pending ∧
    rejectRequest p0 adminP 300 (some "fraud") =
      .ok (stepOk (rejectRequest p0 adminP 300 (some "fraud")) p0) ∧
    (getTx (stepOk (rejectRequest p0 adminP 300 (some "fraud")) p0).txs 300).map
      Tx.status = some .failed :=
  ⟨rfl, rfl, by decide⟩

/-! ### Claim C4 -/

/-- C4: duplicate idempotency keys are replayed with the original
transaction only when the duplicate is detected in the durable log; a
fast-cache hit instead answers a 409 conflict carrying no transaction, so
the claim's "whether via the fast cache or via the durable lookup" clause
is corrected.  A fresh key proceeds to the controller. -/
theorem C4_idempotency (cache : List String) (txs : List Tx) (k : String) :
    (k ∈ cache → idempotencyCheck cache txs (some k) = .conflict409 k) ∧
    (k ∉ cache →
      ∀ t, txs.find? (fun t => t.idempotencyKey == some k) = some t →
        idempotencyCheck cache txs (some k) = .replay200 t) ∧
    (k ∉ cache → txs.find? (fun t => t.idempotencyKey == some k) = none →
      idempotencyCheck cache txs (some k) = .proceed (some k)) := by
  refine ⟨fun h => ?_, fun h t ht => ?_, fun h hn => ?_⟩
  · simp only [idempotencyCheck, if_pos h]
  · simp only [idempotencyCheck, if_neg h, ht]
  · simp only [idempotencyCheck, if_neg h, hn]

/-- C4 witness: concrete conflict, replay and proceed outcomes. -/
theorem C4_witness :
    idempotencyCheck ["k1"] [c4tx] (some "k1") = .conflict409 "k1" ∧
    idempotencyCheck [] [c4tx] (some "k1") = .replay200 c4tx ∧
    idempotencyCheck [] [] (some "k1") = .proceed (some "k1") :=
  ⟨(C4_idempotency ["k1"] [c4tx] "k1").1 (by decide),
   (C4_idempotency [] [c4tx] "k1").2.1 (by decide) c4tx (by decide),
   (C4_idempotency [] [] "k1").2.2 (by decide) rfl⟩

/-- C4 counterexample: a fast-cache hit rejects the retry with a 409
conflict instead of replaying the stored transaction, even though the
original entry is present in the durable log under the same key. -/
theorem C4_counterexample :
    c4tx.idempotencyKey = some "k1" ∧
    idempotencyCheck ["k1"] [c4tx] (some "k1") = .conflict409 "k1" ∧
    idempotencyCheck ["k1"] [c4tx] (some "k1") ≠ .replay200 c4tx :=
  ⟨rfl, by decide, by decide⟩

/-! ### Claim C5 -/

/-- C5: corrected — there is no balance-ceiling check.  The only guard on
the mint-style credit path is the per-amount validator (a positive amount
of at most 20e12 after float conversion); whenever it passes and the
idempotency key is fresh, the credit succeeds regardless of the resulting
balance, which may exceed 20e12 (see the counterexample).  No
LimitExceeded error exists anywhere in the code. -/
theorem C5_noCeiling (s : St) (u : Principal) (body : TransferBody) (key : Option String)
    (receiver : Account) (hrole : u.role = .admin) (hfu : body.fromUserId = none)
    (hgr : getAcct s.accounts body.toUserId = some receiver)
    (hval : txAmountValid (fl body.amount) = true)
    (hfresh : keyFresh s.txs key = true) :
    transfer s u .manual body key = .ok
      { accounts := setAcct s.accounts body.toUserId
          { receiver with balance := jsAdd receiver.balance (fl body.amount) }
        txs := s.txs ++
          [{ id := s.nextId, fromUserId := none, toUserId := some body.toUserId
             amount := fl body.amount, kind := .manual, status := .approved
             idempotencyKey := key, isReversal := false
             reversedTransactionId := none, reason := body.reason
             adminId := some u.id, batchId := none
             recoveryFromUserId := none, recoveryReason := none }]
        nextId := s.nextId + 1 } := by
  have hpos : 0 < (fl body.amount).m := by
    have h2 := hval
    simp only [txAmountValid, Bool.and_eq_true, decide_eq_true_eq] at h2
    exact h2.1
  unfold transfer
  rw [if_neg (by simp [hrole]), if_neg (by simp), if_neg (by simp), if_pos ⟨rfl, hrole⟩,
    hgr]
  simp only []
  rw [hfu]
  simp only []
  rw [if_neg (by omega)]
  simp only [createTx]
  rw [if_neg (by simp [hval]), if_neg (by simp [hfresh])]

/-- C5 witness: crediting 100 to the account already at 20e12 succeeds,
producing a balance strictly above the supposed ceiling. -/
theorem C5_witness :
    transfer q5 adminP .manual
      { toUserId := 2, fromUserId := none, amount := ⟨100, 0⟩, reason := none } none = .ok
      { accounts := [(2, mkAcct "alice@example.com" .player ⟨20000000000100, 0⟩ false false)]
        txs := [{ id := 800, fromUserId := none, toUserId := some 2, amount := ⟨100, 0⟩
                  kind := .manual, status := .approved, idempotencyKey := none
                  isReversal := false, reversedTransactionId := none, reason := none
                  adminId := some 1, batchId := none
                  recoveryFromUserId := none, recoveryReason := none }]
        nextId := 801 } := by
  have h := C5_noCeiling q5 adminP
    { toUserId := 2, fromUserId := none, amount := ⟨100, 0⟩, reason := none } none
    (mkAcct "alice@example.com" .player ⟨20000000000000, 0⟩ false false)
    rfl rfl (by decide) (by decide) rfl
  rw [h]
  rfl

/-- C5 counterexample: the resulting balance 20000000000100 exceeds the
configured ceiling 20000000000000, yet the operation succeeds and appends
an entry instead of failing. -/
theorem C5_counterexample :
    transfer q5 adminP .manual
      { toUserId := 2, fromUserId := none, amount := ⟨100, 0⟩, reason := none } none =
      .ok (stepOk (transfer q5 adminP .manual
        { toUserId := 2, fromUserId := none, amount := ⟨100, 0⟩, reason := none } none) q5) ∧
    (getAcct (stepOk (transfer q5 adminP .manual
        { toUserId := 2, fromUserId := none, amount := ⟨100, 0⟩, reason := none } none)
        q5).accounts 2).map Account.balance = some ⟨20000000000100, 0⟩ ∧
    (20000000000000 : ℚ) < toRat ⟨20000000000100, 0⟩ := by
  refine ⟨rfl, by decide, ?_⟩
  rw [show ((20000000000000 : ℚ)) = toRat ⟨20000000000000, 0⟩ from
    ((toRat_int 20000000000000).trans (by norm_num)).symm]
  exact toRat_lt _ _ (by decide)

/-! ### Claim C6 -/

/-- C6: corrected — amounts are stored as the values of binary float64
doubles and the debit/credit arithmetic is float64, not exact fixed-point
decimal.  It is exact on whole-number values of magnitude at most 2^52
(which covers the whole 0 to 20-trillion amount range), but rounds on
fractional values (see the counterexample).  The sign of the
compareDecimal subtraction does always agree with the exact order, so
comparisons are correct on all inputs. -/
theorem C6_arithmetic (x y : Dy) (hx : WholeLe x (2 ^ 52)) (hy : WholeLe y (2 ^ 52)) :
    toRat (jsAdd x y) = toRat x + toRat y ∧
    toRat (jsSub x y) = toRat x - toRat y ∧
    ((compareDecimal x y).m < 0 ↔ toRat x < toRat y) ∧
    ((compareDecimal x y).m ≤ 0 ↔ toRat x ≤ toRat y) :=
  ⟨jsAdd_whole hx hy, jsSub_whole hx hy, jsSub_m_neg_iff x y, jsSub_m_nonpos_iff x y⟩

/-- C6 witness: exact arithmetic and ordering on the whole inputs 3 and 5. -/
theorem C6_witness :
    toRat (jsAdd ⟨3, 0⟩ ⟨5, 0⟩) = toRat ⟨3, 0⟩ + toRat ⟨5, 0⟩ ∧
    toRat (jsSub ⟨3, 0⟩ ⟨5, 0⟩) = toRat ⟨3, 0⟩ - toRat ⟨5, 0⟩ ∧
    ((compareDecimal ⟨3, 0⟩ ⟨5, 0⟩).m < 0 ↔ toRat ⟨3, 0⟩ < toRat ⟨5, 0⟩) ∧
    ((compareDecimal ⟨3, 0⟩ ⟨5, 0⟩).m ≤ 0 ↔ toRat ⟨3, 0⟩ ≤ toRat ⟨5, 0⟩) :=
  C6_arithmetic ⟨3, 0⟩ ⟨5, 0⟩ (wholeLe_ofInt 3 _ (by norm_num))
    (wholeLe_ofInt 5 _ (by norm_num))

/-- C6 counterexample: the parsed doubles for 0.1 and 0.2 are in range for
every ledger operation (positive and at most 20e12), yet float64 addition
of them differs from the exact rational sum. -/
theorem C6_counterexample :
    0 < toRat (flQ 1 10) ∧ toRat (flQ 1 10) ≤ toRat ⟨20000000000000, 0⟩ ∧
    0 < toRat (flQ 2 10) ∧ toRat (flQ 2 10) ≤ toRat ⟨20000000000000, 0⟩ ∧
    toRat (jsAdd (flQ 1 10) (flQ 2 10)) ≠ toRat (flQ 1 10) + toRat (flQ 2 10) := by
  refine ⟨(toRat_pos_iff _).2 (by decide), toRat_le _ _ (by decide),
    (toRat_pos_iff _).2 (by decide), toRat_le _ _ (by decide), ?_⟩
  rw [← toRat_dadd]
  exact toRat_ne _ _ (by decide)

/-! ### Claim C10 -/

/-- C10: confirmed — a player-initiated request transfer whose target
account id equals the caller's own id always fails (receiver-not-found
when the account does not exist, self-transfer otherwise), so the error
return means no pending entry is appended.  The code enforces the
from-and-to-distinct restriction for requests even though the spec only
states it for manual transfers. -/
theorem C10_selfRequest_fails (s : St) (u : Principal) (body : TransferBody)
    (key : Option String) (hrole : u.role = .player) (hself : body.toUserId = u.id) :
    ∃ e, transfer s u .request body key = .error e ∧
      (e = Err.receiverNotFound ∨ e = Err.selfTransfer) := by
  unfold transfer
  rw [if_neg (by simp), if_neg (by simp [hrole]), if_pos ⟨rfl, hrole⟩]
  rcases hga : getAcct s.accounts body.toUserId with _ | receiver
  · exact ⟨.receiverNotFound, rfl, Or.inl rfl⟩
  · refine ⟨.selfTransfer, ?_, Or.inr rfl⟩
    simp only []
    rw [if_pos hself.symm]

/-- C10 witness: player 2 requesting a transfer to account 2 fails. -/
theorem C10_witness :
    ∃ e, transfer g0 ⟨2, .player⟩ .request
        { toUserId := 2, fromUserId := none, amount := ⟨5, 0⟩, reason := none } none =
        .error e ∧ (e = Err.receiverNotFound ∨ e = Err.selfTransfer) :=
  C10_selfRequest_fails g0 ⟨2, .player⟩
    { toUserId := 2, fromUserId := none, amount := ⟨5, 0⟩, reason := none } none rfl rfl

/-! ### Claim C1 -/

/-- C1: corrected — along any trace of completed ledger operations that
stays in the float64-exact regime (whole balances and amounts of magnitude
at most 2^52, which the spec's 20-trillion bound implies for whole-unit
usage), every stored balance equals the net projection over approved OR
reversed entries.  The spec's approved-only formula is refuted by the
counterexample: after a reversal the original entry (status reversed) and
its compensating entry (status approved) must both be counted, otherwise
the approved-only sum double-counts the reversal credit. -/
theorem C1_balance_projection (s : St) (h : SafeReach s) : InvWith effectiveB s :=
  (safeReach_good h).1

/-- C1 witness: the balances of the mint-transfer-reverse scenario g3
match the approved-or-reversed projection. -/
theorem C1_witness : InvWith effectiveB g3 := by
  have h0 : SafeReach g0 := SafeReach.genesis _ 100 (by decide) (by decide)
  have h1 : SafeReach g1 := SafeReach.stepTransfer adminP .manual
    { toUserId := 2, fromUserId := none, amount := ⟨100, 0⟩, reason := none } none
    h0 (safeSt_dec g0 (by decide) (by decide)) (wholeLe_ofInt 100 _ (by norm_num)) rfl
  have h2 : SafeReach g2 := SafeReach.stepTransfer adminP .manual
    { toUserId := 3, fromUserId := some 2, amount := ⟨30, 0⟩, reason := none } none
    h1 (safeSt_dec g1 (by decide) (by decide)) (wholeLe_ofInt 30 _ (by norm_num)) rfl
  have h3 : SafeReach g3 := SafeReach.stepReverse adminP 101 (some "undo")
    h2 (safeSt_dec g2 (by decide) (by decide)) rfl
  exact C1_balance_projection g3 h3

/-- C1 counterexample: the state g3 is reachable (mint 100 to account 2,
transfer 30 to account 3, reverse that transfer); account 2 then holds
100, but the approved-only projection of the log gives 130 (the mint plus
the compensating reversal entry), while the approved-or-reversed
projection gives 100. -/
theorem C1_counterexample :
    Reach g3 ∧
    (getAcct g3.accounts 2).map Account.balance = some ⟨100, 0⟩ ∧
    toRat ⟨100, 0⟩ ≠ projApproved g3.txs 2 ∧
    toRat ⟨100, 0⟩ = projEffective g3.txs 2 := by
  have hr : Reach g3 := by
    have h0 : Reach g0 := Reach.genesis _ 100 (by decide) (by decide)
    have h1 : Reach g1 := Reach.stepTransfer adminP .manual
      { toUserId := 2, fromUserId := none, amount := ⟨100, 0⟩, reason := none } none h0 rfl
    have h2 : Reach g2 := Reach.stepTransfer adminP .manual
      { toUserId := 3, fromUserId := some 2, amount := ⟨30, 0⟩, reason := none } none h1 rfl
    exact Reach.stepReverse adminP 101 (some "undo") h2 rfl
  have htxs : g3.txs =
      [ { id := 100, fromUserId := none, toUserId := some 2, amount := ⟨100, 0⟩
          kind := .manual, status := .approved, idempotencyKey := none
          isReversal := false, reversedTransactionId := none, reason := none
          adminId := some 1, batchId := none
          recoveryFromUserId := none, recoveryReason := none }
      , { id := 101, fromUserId := some 2, toUserId := some 3, amount := ⟨30, 0⟩
          kind := .manual, status := .reversed, idempotencyKey := none
          isReversal := false, reversedTransactionId := none, reason := none
          adminId := some 1, batchId := none
          recoveryFromUserId := none, recoveryReason := none }
      , { id := 102, fromUserId := some 3, toUserId := some 2, amount := ⟨30, 0⟩
          kind := .reversal, status := .approved, idempotencyKey := none
          isReversal := true, reversedTransactionId := some 101, reason := some "undo"
          adminId := some 1, batchId := none
          recoveryFromUserId := none, recoveryReason := none } ] := by decide
  refine ⟨hr, rfl, ?_, ?_⟩
  · rw [htxs]
    simp only [projApproved, projWith_cons, projWith_nil, contrib]
    simp +decide [approvedB, toRat]
  · rw [htxs]
    simp only [projEffective, projWith_cons, projWith_nil, contrib]
    simp +decide [effectiveB, toRat]

/-! ### Claim C7 -/

/-- C7: corrected in two points — the failure guards and the success
effect are as claimed (same-account, not-banned, not-verified and
non-positive-balance each abort with no state change; success zeroes the
banned account, credits the verified one and appends a single
chip-recovery entry from A to B of amount S carrying the source id and
reason), but the credited balance is the float64 sum, which equals V + S
only in the whole-number regime (see the counterexample), and success
additionally requires the transaction amount validator (S at most 20e12)
and a fresh idempotency key. -/
theorem C7_recoverChips (s : St) (u : Principal) (x y : Nat) (reason key : Option String)
    (bu vu : Account) (hgx : getAcct s.accounts x = some bu)
    (hgy : getAcct s.accounts y = some vu) :
    (x = y → recoverChips s u x y reason key = .error .sameAccount) ∧
    (x ≠ y → bu.isBanned = false → recoverChips s u x y reason key = .error .notBanned) ∧
    (x ≠ y → bu.isBanned = true → vu.isVerified = false →
      recoverChips s u x y reason key = .error .notVerified) ∧
    (x ≠ y → bu.isBanned = true → vu.isVerified = true → toRat bu.balance ≤ 0 →
      recoverChips s u x y reason key = .error .noChipsToRecover) ∧
    (x ≠ y → bu.isBanned = true → vu.isVerified = true → 0 < toRat bu.balance →
      txAmountValid bu.balance = true → keyFresh s.txs key = true →
      recoverChips s u x y reason key = .ok
        { accounts := setAcct (setAcct s.accounts x { bu with balance := ⟨0, 0⟩ }) y
            { vu with balance := jsAdd vu.balance bu.balance }
          txs := s.txs ++
            [{ id := s.nextId, fromUserId := some x, toUserId := some y
               amount := bu.balance, kind := .chipRecovery, status := .approved
               idempotencyKey := key, isReversal := false
               reversedTransactionId := none
               reason := some (reason.getD "Chip recovery from banned account")
               adminId := some u.id, batchId := none
               recoveryFromUserId := some x
               recoveryReason := some (reason.getD
                 ("Recovered chips from banned account: " ++ bu.email)) }]
          nextId := s.nextId + 1 }) := by
  refine ⟨fun hxy => ?_, fun hxy hban => ?_, fun hxy hban hver => ?_,
    fun hxy hban hver hbal => ?_, fun hxy hban hver hbal hval hfresh => ?_⟩
  · unfold recoverChips
    rw [if_pos hxy]
  · unfold recoverChips
    rw [if_neg hxy, hgx, hgy]
    simp only []
    rw [if_pos (by simp [hban])]
  · unfold recoverChips
    rw [if_neg hxy, hgx, hgy]
    simp only []
    rw [if_neg (by simp [hban]), if_pos (by simp [hver])]
  · unfold recoverChips
    rw [if_neg hxy, hgx, hgy]
    simp only []
    rw [if_neg (by simp [hban]), if_neg (by simp [hver]),
      if_pos ((toRat_nonpos_iff _).1 hbal)]
  · unfold recoverChips
    rw [if_neg hxy, hgx, hgy]
    simp only []
    rw [if_neg (by simp [hban]), if_neg (by simp [hver]),
      if_neg (not_le.2 ((toRat_pos_iff _).1 hbal))]
    simp only [createTx]
    rw [if_neg (by simp [hval]), if_neg (by simp [hfresh])]

/-- C7 witness: the spec's own example — banned account 4 with balance
500, verified account 5 with balance 100 — recovers to balances 0 and 600
with one chip-recovery entry of amount 500. -/
theorem C7_witness :
    recoverChips w7 adminP 4 5 none none = .ok
      { accounts := [ (4, mkAcct "cheat@example.com" .player ⟨0, 0⟩ true false)
                    , (5, mkAcct "good@example.com" .player ⟨600, 0⟩ false true) ]
        txs := [{ id := 600, fromUserId := some 4, toUserId := some 5
                  amount := ⟨500, 0⟩, kind := .chipRecovery, status := .approved
                  idempotencyKey := none, isReversal := false
                  reversedTransactionId := none
                  reason := some "Chip recovery from banned account"
                  adminId := some 1, batchId := none
                  recoveryFromUserId := some 4
                  recoveryReason :=
                    some "Recovered chips from banned account: cheat@example.com" }]
        nextId := 601 } := by
  have h := (C7_recoverChips w7 adminP 4 5 none none
    (mkAcct "cheat@example.com" .player ⟨500, 0⟩ true false)
    (mkAcct "good@example.com" .player ⟨100, 0⟩ false true)
    (by decide) (by decide)).2.2.2.2
    (by decide) rfl rfl ((toRat_pos_iff _).2 (by decide)) (by decide) rfl
  rw [h]
  rfl

/-- C7 counterexample: with fractional balances (the doubles of 0.2 and
0.1) the recovery succeeds but the credited balance is the float64 sum,
which differs from the exact V + S. -/
theorem C7_counterexample :
    recoverChips q7 adminP 4 5 none none =
      .ok (stepOk (recoverChips q7 adminP 4 5 none none) q7) ∧
    (getAcct q7.accounts 4).map Account.balance = some (flQ 2 10) ∧
    (getAcct q7.accounts 5).map Account.balance = some (flQ 1 10) ∧
    (getAcct (stepOk (recoverChips q7 adminP 4 5 none none) q7).accounts 5).map
      Account.balance = some ⟨5404319552844596, -54⟩ ∧
    toRat ⟨5404319552844596, -54⟩ ≠ toRat (flQ 1 10) + toRat (flQ 2 10) := by
  refine ⟨rfl, rfl, rfl, by decide, ?_⟩
  rw [← toRat_dadd]
  exact toRat_ne _ _ (by decide)

/-! ### Claim C8 -/

/-- C8: corrected — a successful dailyMint credits every snapshot account
and appends exactly one approved daily-mint entry per account, all sharing
the batch id, with no sender; invalid inputs abort the whole session with
no credit and no entry (the all-or-nothing clause of the claim is the
session abort, which the error return models).  However the credit applied
to each balance is the float64 sum, which equals balance + m only in the
whole-number regime (see the counterexample); the mint amount must also
pass the 20e12 amount validator. -/
theorem C8_dailyMint (s : St) (u : Principal) (ap : Option Dy) (b : String) :
    ((mintAmountOf ap).m ≤ 0 → dailyMint s u ap b = .error .invalidMintAmount) ∧
    (0 < (mintAmountOf ap).m → s.accounts.isEmpty = true →
      dailyMint s u ap b = .error .noUsersFound) ∧
    (0 < (mintAmountOf ap).m → s.accounts.isEmpty = false →
      txAmountValid (mintAmountOf ap) = false →
      dailyMint s u ap b = .error .amountOutOfRange) ∧
    (0 < (mintAmountOf ap).m → s.accounts.isEmpty = false →
      txAmountValid (mintAmountOf ap) = true →
      dailyMint s u ap b = .ok
        { accounts := s.accounts.map fun p =>
            (p.1, { p.2 with balance := jsAdd p.2.balance (mintAmountOf ap) })
          txs := s.txs ++ mintTxList s.accounts s.nextId (mintAmountOf ap) b u.id
          nextId := s.nextId + s.accounts.length }) ∧
    (mintTxList s.accounts s.nextId (mintAmountOf ap) b u.id).length =
      s.accounts.length ∧
    (∀ t ∈ mintTxList s.accounts s.nextId (mintAmountOf ap) b u.id,
      t.kind = .dailyMint ∧ t.status = .approved ∧ t.fromUserId = none ∧
      t.amount = mintAmountOf ap ∧ t.batchId = some b) ∧
    (WholeLe (mintAmountOf ap) (2 ^ 52) → ∀ a acct, getAcct s.accounts a = some acct →
      WholeLe acct.balance (2 ^ 52) →
      toRat (jsAdd acct.balance (mintAmountOf ap)) =
        toRat acct.balance + toRat (mintAmountOf ap)) := by
  refine ⟨fun hnp => ?_, fun hpos hemp => ?_, fun hpos hne hbad => ?_,
    fun hpos hne hval => ?_, mintTxList_length _ _ _ _ _, fun t ht => ?_,
    fun hmw a acct hga hw => jsAdd_whole hw hmw⟩
  · unfold dailyMint
    rw [if_pos hnp]
  · unfold dailyMint
    rw [if_neg (by omega), if_pos hemp]
  · unfold dailyMint
    rw [if_neg (by omega), if_neg (by simp [hne]), if_pos (by simp [hbad])]
  · unfold dailyMint
    rw [if_neg (by omega), if_neg (by simp [hne]), if_neg (by simp [hval])]
  · obtain ⟨h1, h2, h3, h4, h5, _⟩ := mintTxList_fields _ _ _ _ _ t ht
    exact ⟨h1, h2, h3, h4, h5⟩

/-- C8 witness: minting 100 to the three genesis accounts produces three
approved daily-mint entries sharing one batch id and credits each account
by exactly 100. -/
theorem C8_witness :
    dailyMint g0 adminP (some ⟨100, 0⟩) "batch-1" = .ok
      { accounts := [ (1, mkAcct "admin@example.com" .admin ⟨100, 0⟩ false false)
                    , (2, mkAcct "alice@example.com" .player ⟨100, 0⟩ false false)
                    , (3, mkAcct "bob@example.com" .player ⟨100, 0⟩ false false) ]
        txs := [ { id := 100, fromUserId := none, toUserId := some 1, amount := ⟨100, 0⟩
                   kind := .dailyMint, status := .approved, idempotencyKey := none
                   isReversal := false, reversedTransactionId := none, reason := none
                   adminId := some 1, batchId := some "batch-1"
                   recoveryFromUserId := none, recoveryReason := none }
               , { id := 101, fromUserId := none, toUserId := some 2, amount := ⟨100, 0⟩
                   kind := .dailyMint, status := .approved, idempotencyKey := none
                   isReversal := false, reversedTransactionId := none, reason := none
                   adminId := some 1, batchId := some "batch-1"
                   recoveryFromUserId := none, recoveryReason := none }
               , { id := 102, fromUserId := none, toUserId := some 3, amount := ⟨100, 0⟩
                   kind := .dailyMint, status := .approved, idempotencyKey := none
                   isReversal := false, reversedTransactionId := none, reason := none
                   adminId := some 1, batchId := some "batch-1"
                   recoveryFromUserId := none, recoveryReason := none } ]
        nextId := 103 } ∧
    (mintTxList g0.accounts g0.nextId (mintAmountOf (some ⟨100, 0⟩)) "batch-1"
      adminP.id).length = 3 := by
  have h := C8_dailyMint g0 adminP (some ⟨100, 0⟩) "batch-1"
  refine ⟨?_, ?_⟩
  · rw [h.2.2.2.1 (by decide) rfl (by decide)]
    rfl
  · rw [h.2.2.2.2.1]
    rfl

/-- C8 counterexample: minting the double of 0.1 to an account holding the
double of 0.2 succeeds, but the credited balance is the float64 sum, not
the exact increase by the mint amount. -/
theorem C8_counterexample :
    dailyMint q8 adminP (some (flQ 1 10)) "batch-2" =
      .ok (stepOk (dailyMint q8 adminP (some (flQ 1 10)) "batch-2") q8) ∧
    (getAcct q8.accounts 2).map Account.balance = some (flQ 2 10) ∧
    (getAcct (stepOk (dailyMint q8 adminP (some (flQ 1 10)) "batch-2") q8).accounts 2).map
      Account.balance = some ⟨5404319552844596, -54⟩ ∧
    toRat ⟨5404319552844596, -54⟩ ≠ toRat (flQ 2 10) + toRat (flQ 1 10) := by
  refine ⟨rfl, rfl, by decide, ?_⟩
  rw [← toRat_dadd]
  exact toRat_ne _ _ (by decide)

/-! ### Claim C9 -/

/-- C9: corrected — approveRequest re-checks the sender's balance at
approval time: a current balance below the request amount fails the whole
operation with no state change (the entry stays pending); otherwise the
sender is debited, the receiver credited, the entry set to approved and
stamped with the acting admin.  The debit and credit are float64
operations, exact only in the whole-number regime: with fractional values
the credited balance differs from the exact sum (see counterexample). -/
theorem C9_approveRequest (s : St) (u : Principal) (i : Nat) (t : Tx) (f r : Nat)
    (sender receiver : Account)
    (hget : getTx s.txs i = some t) (hkind : t.kind = .request)
    (hst : t.status = .pending) (hf : t.fromUserId = some f) (hr : t.toUserId = some r)
    (hgs : getAcct s.accounts f = some sender)
    (hgr : getAcct s.accounts r = some receiver) :
    (toRat sender.balance < toRat t.amount →
      approveRequest s u i = .error .insufficientBalance) ∧
    (toRat t.amount ≤ toRat sender.balance →
      approveRequest s u i = .ok { s with
        accounts := setAcct (setAcct s.accounts f
          { sender with balance := jsSub sender.balance t.amount }) r
          { receiver with balance := jsAdd receiver.balance t.amount }
        txs := setTx s.txs i fun tx =>
          { tx with status := .approved, adminId := some u.id } }) := by
  have key : approveRequest s u i =
      if (compareDecimal sender.balance t.amount).m < 0 then
        .error .insufficientBalance
      else .ok { s with
        accounts := setAcct (setAcct s.accounts f
          { sender with balance := jsSub sender.balance t.amount }) r
          { receiver with balance := jsAdd receiver.balance t.amount }
        txs := setTx s.txs i fun tx =>
          { tx with status := .approved, adminId := some u.id } } := by
    unfold approveRequest
    rw [hget]
    simp only []
    rw [if_neg (by simp [hkind]), if_neg (by simp [hst]), hf, hr]
    simp only []
    rw [hgs, hgr]
  refine ⟨fun hlt => ?_, fun hle => ?_⟩
  · rw [key, if_pos (show (compareDecimal sender.balance t.amount).m < 0 from
      (jsSub_m_neg_iff _ _).2 hlt)]
  · rw [key, if_neg (show ¬ (compareDecimal sender.balance t.amount).m < 0 from by
      show ¬ (jsSub sender.balance t.amount).m < 0
      rw [jsSub_m_neg_iff]
      exact not_lt.2 hle)]

/-- C9 witness: approving the pending request of 5 from account 2
(balance 40) to account 3 (balance 7) debits to 35, credits to 12, and
marks the entry approved with the admin stamped. -/
theorem C9_witness :
    approveRequest p0 adminP 300 = .ok
      { accounts := [ (1, mkAcct "admin@example.com" .admin ⟨0, 0⟩ false false)
                    , (2, mkAcct "alice@example.com" .player ⟨35, 0⟩ false false)
                    , (3, mkAcct "bob@example.com" .player ⟨12, 0⟩ false false) ]
        txs := [{ mkTx 300 (some 2) (some 3) ⟨5, 0⟩ .request .approved with
                  adminId := some 1 }]
        nextId := 301 } := by
  have h := (C9_approveRequest p0 adminP 300
    (mkTx 300 (some 2) (some 3) ⟨5, 0⟩ .request .pending) 2 3
    (mkAcct "alice@example.com" .player ⟨40, 0⟩ false false)
    (mkAcct "bob@example.com" .player ⟨7, 0⟩ false false)
    rfl rfl rfl rfl rfl (by decide) (by decide)).2 (toRat_le _ _ (by decide))
  rw [h]
  rfl

/-- C9 counterexample: approving a request for the double of 0.2 against a
receiver holding the double of 0.1 succeeds, but the credited balance is
the float64 sum, which differs from the exact sum of the two amounts. -/
theorem C9_counterexample :
    approveRequest q9 adminP 400 =
      .ok (stepOk (approveRequest q9 adminP 400) q9) ∧
    (getAcct q9.accounts 3).map Account.balance = some (flQ 1 10) ∧
    (getTx q9.txs 400).map Tx.amount = some (flQ 2 10) ∧
    (getAcct (stepOk (approveRequest q9 adminP 400) q9).accounts 3).map Account.balance =
      some ⟨5404319552844596, -54⟩ ∧
    toRat ⟨5404319552844596, -54⟩ ≠ toRat (flQ 1 10) + toRat (flQ 2 10) := by
  refine ⟨rfl, rfl, rfl, by decide, ?_⟩
  rw [← toRat_dadd]
  exact toRat_ne _ _ (by decide)

/-! ### Claim C2 -/

/-- C2: corrected — reversing an approved, non-reversal manual transfer of
amount X from A to B (when B currently holds at least X) succeeds, appends
an approved reversal entry from B to A of amount X linked to the original,
marks the original entry reversed, and moves X back; a second reversal of
the same entry fails with AlreadyReversed, and reversing a reversal-kind
entry always fails.  However the moved-back balances are float64 results:
they equal the pre-transfer values only in the whole-number regime, and
with fractional amounts the round-trip does not restore the balances (see
the counterexample). -/
theorem C2_reversal_roundtrip (s : St) (u u2 : Principal) (body : TransferBody)
    (key r0 : Option String) (senderId : Nat) (sender receiver : Account)
    (hrole : u.role = .admin) (hfu : body.fromUserId = some senderId)
    (hgr : getAcct s.accounts body.toUserId = some receiver)
    (hgs : getAcct s.accounts senderId = some sender)
    (hself : senderId ≠ body.toUserId)
    (hpos : 0 < (fl body.amount).m)
    (hbal : ¬ (compareDecimal sender.balance (fl body.amount)).m < 0)
    (hval : txAmountValid (fl body.amount) = true)
    (hfresh : keyFresh s.txs key = true)
    (hfid : ∀ t ∈ s.txs, t.id < s.nextId)
    (hbal2 : ¬ (compareDecimal (jsAdd receiver.balance (fl body.amount))
      (fl body.amount)).m < 0) :
    ∃ s1 s2, transfer s u .manual body key = .ok s1 ∧
      reverseTransaction s1 u2 s.nextId r0 = .ok s2 ∧
      getTx s2.txs (s.nextId + 1) = some
        { id := s.nextId + 1, fromUserId := some body.toUserId, toUserId := some senderId
          amount := fl body.amount, kind := .reversal, status := .approved
          idempotencyKey := none, isReversal := true
          reversedTransactionId := some s.nextId, reason := r0
          adminId := some u2.id, batchId := none
          recoveryFromUserId := none, recoveryReason := none } ∧
      (getTx s2.txs s.nextId).map Tx.status = some .reversed ∧
      getAcct s2.accounts senderId = some
        { sender with
          balance := jsAdd (jsSub sender.balance (fl body.amount)) (fl body.amount) } ∧
      getAcct s2.accounts body.toUserId = some
        { receiver with
          balance := jsSub (jsAdd receiver.balance (fl body.amount)) (fl body.amount) } ∧
      (WholeLe sender.balance (2 ^ 52) → WholeLe (fl body.amount) (2 ^ 52) →
        toRat (jsAdd (jsSub sender.balance (fl body.amount)) (fl body.amount)) =
          toRat sender.balance) ∧
      (WholeLe receiver.balance (2 ^ 52) → WholeLe (fl body.amount) (2 ^ 52) →
        toRat (jsSub (jsAdd receiver.balance (fl body.amount)) (fl body.amount)) =
          toRat receiver.balance) ∧
      reverseTransaction s2 u2 s.nextId r0 = .error .alreadyReversed ∧
      (∀ (s3 : St) (j : Nat) (t2 : Tx), getTx s3.txs j = some t2 →
        t2.kind = .reversal → ∃ e, reverseTransaction s3 u2 j r0 = .error e) := by
  have hT0 : getTx (s.txs ++
      [{ id := s.nextId, fromUserId := some senderId, toUserId := some body.toUserId
         amount := fl body.amount, kind := .manual, status := .approved
         idempotencyKey := key, isReversal := false, reversedTransactionId := none
         reason := body.reason, adminId := some u.id, batchId := none
         recoveryFromUserId := none, recoveryReason := none }]) s.nextId = some
      { id := s.nextId, fromUserId := some senderId, toUserId := some body.toUserId
        amount := fl body.amount, kind := .manual, status := .approved
        idempotencyKey := key, isReversal := false, reversedTransactionId := none
        reason := body.reason, adminId := some u.id, batchId := none
        recoveryFromUserId := none, recoveryReason := none } :=
    getTx_append_fresh s.txs _ (fun t ht => Nat.ne_of_lt (hfid t ht))
  have hga1 : getAcct (setAcct (setAcct s.accounts senderId
        { sender with balance := jsSub sender.balance (fl body.amount) }) body.toUserId
        { receiver with balance := jsAdd receiver.balance (fl body.amount) }) body.toUserId =
      some { receiver with balance := jsAdd receiver.balance (fl body.amount) } :=
    getAcct_setAcct_self _ _ _ receiver
      (by rw [getAcct_setAcct_ne _ _ _ _ hself]; exact hgr)
  have hga2 : getAcct (setAcct (setAcct s.accounts senderId
        { sender with balance := jsSub sender.balance (fl body.amount) }) body.toUserId
        { receiver with balance := jsAdd receiver.balance (fl body.amount) }) senderId =
      some { sender with balance := jsSub sender.balance (fl body.amount) } := by
    rw [getAcct_setAcct_ne _ _ _ _ (fun hc => hself hc.symm)]
    exact getAcct_setAcct_self _ _ _ sender hgs
  have hmid : getTx (setTx (s.txs ++
      [{ id := s.nextId, fromUserId := some senderId, toUserId := some body.toUserId
         amount := fl body.amount, kind := .manual, status := .approved
         idempotencyKey := key, isReversal := false, reversedTransactionId := none
         reason := body.reason, adminId := some u.id, batchId := none
         recoveryFromUserId := none, recoveryReason := none }]) s.nextId
      fun tx => { tx with status := .reversed }) s.nextId = some
      { id := s.nextId, fromUserId := some senderId, toUserId := some body.toUserId
        amount := fl body.amount, kind := .manual, status := .reversed
        idempotencyKey := key, isReversal := false, reversedTransactionId := none
        reason := body.reason, adminId := some u.id, batchId := none
        recoveryFromUserId := none, recoveryReason := none } :=
    getTx_setTx_self _ _ _ _ hT0 (fun tx => rfl)
  have hfull : getTx ((setTx (s.txs ++
        [{ id := s.nextId, fromUserId := some senderId, toUserId := some body.toUserId
           amount := fl body.amount, kind := .manual, status := .approved
           idempotencyKey := key, isReversal := false, reversedTransactionId := none
           reason := body.reason, adminId := some u.id, batchId := none
           recoveryFromUserId := none, recoveryReason := none }]) s.nextId
        fun tx => { tx with status := .reversed }) ++
        [{ id := s.nextId + 1, fromUserId := some body.toUserId, toUserId := some senderId
           amount := fl body.amount, kind := .reversal, status := .approved
           idempotencyKey := none, isReversal := true
           reversedTransactionId := some s.nextId, reason := r0
           adminId := some u2.id, batchId := none
           recoveryFromUserId := none, recoveryReason := none }]) s.nextId = some
      { id := s.nextId, fromUserId := some senderId, toUserId := some body.toUserId
        amount := fl body.amount, kind := .manual, status := .reversed
        idempotencyKey := key, isReversal := false, reversedTransactionId := none
        reason := body.reason, adminId := some u.id, batchId := none
        recoveryFromUserId := none, recoveryReason := none } :=
    getTx_append_left _ _ _ _ hmid
  refine ⟨St.mk
    (setAcct (setAcct s.accounts senderId
      { sender with balance := jsSub sender.balance (fl body.amount) }) body.toUserId
      { receiver with balance := jsAdd receiver.balance (fl body.amount) })
    (s.txs ++
      [{ id := s.nextId, fromUserId := some senderId, toUserId := some body.toUserId
         amount := fl body.amount, kind := .manual, status := .approved
         idempotencyKey := key, isReversal := false, reversedTransactionId := none
         reason := body.reason, adminId := some u.id, batchId := none
         recoveryFromUserId := none, recoveryReason := none }])
    (s.nextId + 1),
    St.mk
    (setAcct (setAcct (setAcct (setAcct s.accounts senderId
        { sender with balance := jsSub sender.balance (fl body.amount) }) body.toUserId
        { receiver with balance := jsAdd receiver.balance (fl body.amount) })
      body.toUserId
      { receiver with
        balance := jsSub (jsAdd receiver.balance (fl body.amount)) (fl body.amount) })
      senderId
      { sender with
        balance := jsAdd (jsSub sender.balance (fl body.amount)) (fl body.amount) })
    ((setTx (s.txs ++
      [{ id := s.nextId, fromUserId := some senderId, toUserId := some body.toUserId
         amount := fl body.amount, kind := .manual, status := .approved
         idempotencyKey := key, isReversal := false, reversedTransactionId := none
         reason := body.reason, adminId := some u.id, batchId := none
         recoveryFromUserId := none, recoveryReason := none }]) s.nextId
      fun tx => { tx with status := .reversed }) ++
      [{ id := s.nextId + 1, fromUserId := some body.toUserId, toUserId := some senderId
         amount := fl body.amount, kind := .reversal, status := .approved
         idempotencyKey := none, isReversal := true
         reversedTransactionId := some s.nextId, reason := r0
         adminId := some u2.id, batchId := none
         recoveryFromUserId := none, recoveryReason := none }])
    (s.nextId + 1 + 1), ?_, ?_, ?_, ?_, ?_, ?_, ?_, ?_, ?_, ?_⟩
  · unfold transfer
    rw [if_neg (by simp [hrole]), if_neg (by simp), if_neg (by simp),
      if_pos ⟨rfl, hrole⟩, hgr]
    simp only []
    rw [hfu]
    simp only []
    rw [hgs]
    simp only []
    rw [if_neg hself, if_neg (by omega), if_neg hbal]
    simp only [createTx]
    rw [if_neg (by simp [hval]), if_neg (by simp [hfresh])]
  · unfold reverseTransaction
    rw [hT0]
    simp only []
    rw [if_neg (by simp), if_neg (by simp), if_neg (by simp)]
    rw [hga1, hga2]
    simp only []
    rw [if_neg hbal2]
    simp only [createTx]
    rw [if_neg (by simp [hval]), if_neg (by simp [keyFresh_none])]
  · refine getTx_append_fresh _ _ ?_
    intro t ht
    show t.id ≠ s.nextId + 1
    obtain ⟨t2, ht2, hid⟩ := setTx_id_mem _ _
      (fun tx => { tx with status := .reversed }) (fun tx => rfl) t ht
    rcases List.mem_append.1 ht2 with hmem | hmem
    · have h3 := hfid t2 hmem
      omega
    · rcases List.mem_singleton.1 hmem with rfl
      have h4 : t.id = s.nextId := hid
      omega
  · rw [hfull]
    rfl
  · refine getAcct_setAcct_self _ _ _
      { sender with balance := jsSub sender.balance (fl body.amount) } ?_
    rw [getAcct_setAcct_ne _ _ _ _ (fun hc => hself hc.symm)]
    exact hga2
  · rw [getAcct_setAcct_ne _ _ _ _ hself]
    exact getAcct_setAcct_self _ _ _ _ hga1
  · intro hsw hxw
    obtain ⟨nb, hnb, hbb⟩ := hsw
    obtain ⟨nx, hnx, hbx⟩ := hxw
    have h1 := jsSub_exact sender.balance (fl body.amount) nb nx hnb hnx (by omega)
    have h2 := jsAdd_exact (jsSub sender.balance (fl body.amount)) (fl body.amount)
      (nb - nx) nx (by rw [h1, hnb, hnx]; push_cast; ring) hnx (by omega)
    rw [h2, h1]
    ring
  · intro hrw hxw
    obtain ⟨nr, hnr, hbr⟩ := hrw
    obtain ⟨nx, hnx, hbx⟩ := hxw
    have h1 := jsAdd_exact receiver.balance (fl body.amount) nr nx hnr hnx (by omega)
    have h2 := jsSub_exact (jsAdd receiver.balance (fl body.amount)) (fl body.amount)
      (nr + nx) nx (by rw [h1, hnr, hnx]; push_cast; ring) hnx (by omega)
    rw [h2, h1]
    ring
  · unfold reverseTransaction
    rw [hfull]
    simp
  · intro s3 j t2 hget2 hkind2
    by_cases hst2 : t2.status = .reversed
    · refine ⟨.alreadyReversed, ?_⟩
      unfold reverseTransaction
      rw [hget2]
      simp only []
      rw [if_pos hst2]
    · refine ⟨.cannotReverseReversal, ?_⟩
      unfold reverseTransaction
      rw [hget2]
      simp only []
      rw [if_neg hst2, if_pos hkind2]

/-- C2 witness: in scenario g1, a manual transfer of 30 from account 2 to
account 3 followed by its reversal restores both whole balances, appends
the linked approved reversal entry, marks the original reversed, and a
repeat reversal fails. -/
theorem C2_witness :
    ∃ s1 s2, transfer g1 adminP .manual
        { toUserId := 3, fromUserId := some 2, amount := ⟨30, 0⟩, reason := none } none =
        .ok s1 ∧
      reverseTransaction s1 adminP g1.nextId (some "undo") = .ok s2 ∧
      getTx s2.txs (g1.nextId + 1) = some
        { id := g1.nextId + 1, fromUserId := some 3, toUserId := some 2
          amount := fl ⟨30, 0⟩, kind := .reversal, status := .approved
          idempotencyKey := none, isReversal := true
          reversedTransactionId := some g1.nextId, reason := some "undo"
          adminId := some 1, batchId := none
          recoveryFromUserId := none, recoveryReason := none } ∧
      (getTx s2.txs g1.nextId).map Tx.status = some .reversed ∧
      getAcct s2.accounts 2 = some
        { mkAcct "alice@example.com" .player ⟨100, 0⟩ false false with
          balance := jsAdd (jsSub ⟨100, 0⟩ (fl ⟨30, 0⟩)) (fl ⟨30, 0⟩) } ∧
      getAcct s2.accounts 3 = some
        { mkAcct "bob@example.com" .player ⟨0, 0⟩ false false with
          balance := jsSub (jsAdd ⟨0, 0⟩ (fl ⟨30, 0⟩)) (fl ⟨30, 0⟩) } ∧
      (WholeLe (⟨100, 0⟩ : Dy) (2 ^ 52) → WholeLe (fl ⟨30, 0⟩) (2 ^ 52) →
        toRat (jsAdd (jsSub ⟨100, 0⟩ (fl ⟨30, 0⟩)) (fl ⟨30, 0⟩)) = toRat ⟨100, 0⟩) ∧
      (WholeLe (⟨0, 0⟩ : Dy) (2 ^ 52) → WholeLe (fl ⟨30, 0⟩) (2 ^ 52) →
        toRat (jsSub (jsAdd ⟨0, 0⟩ (fl ⟨30, 0⟩)) (fl ⟨30, 0⟩)) = toRat ⟨0, 0⟩) ∧
      reverseTransaction s2 adminP g1.nextId (some "undo") =
        .error .alreadyReversed ∧
      (∀ (s3 : St) (j : Nat) (t2 : Tx), getTx s3.txs j = some t2 →
        t2.kind = .reversal →
        ∃ e, reverseTransaction s3 adminP j (some "undo") = .error e) :=
  C2_reversal_roundtrip g1 adminP adminP
    { toUserId := 3, fromUserId := some 2, amount := ⟨30, 0⟩, reason := none }
    none (some "undo") 2
    (mkAcct "alice@example.com" .player ⟨100, 0⟩ false false)
    (mkAcct "bob@example.com" .player ⟨0, 0⟩ false false)
    rfl rfl (by decide) (by decide) (by decide) (by decide) (by decide) (by decide)
    rfl (by decide) (by decide)

/-- C2 counterexample: with fractional values the reversal round-trip does
not restore the receiver: starting from the double of 0.1, transferring
the double of 0.2 in and reversing it leaves a balance strictly different
from the original (the float64 residue of 0.1 + 0.2 - 0.2). -/
theorem C2_counterexample :
    transfer h0 adminP .manual
      { toUserId := 3, fromUserId := some 2, amount := flQ 2 10, reason := none } none =
      .ok h1 ∧
    reverseTransaction h1 adminP 200 (some "undo") = .ok h2 ∧
    (getAcct h0.accounts 3).map Account.balance = some (flQ 1 10) ∧
    (getAcct h2.accounts 3).map Account.balance = some ⟨3602879701896398, -55⟩ ∧
    toRat ⟨3602879701896398, -55⟩ ≠ toRat (flQ 1 10) :=
  ⟨rfl, rfl, rfl, by decide, toRat_ne _ _ (by decide)⟩
